import Mathlib

/-!
# Verification of the tournament pairing and result-resolution engine

This file gives a shallow embedding, in Lean, of the core of the chess
tournament manager: the Swiss / round-robin pairing engines
(`app/services/swiss.py`), the result-lifecycle endpoints of
`app/routers/pairings.py` (claim / confirm / dispute / admin override),
the deadline processor, and the final-ranking computation of
`app/services/tournament_automation.py`.

Conventions of the embedding:

* Game points are stored by the source as Python floats that are always
  integer multiples of 0.5, on which float arithmetic is exact.  We represent
  every such quantity by its number of half-points, as an `Int`: a win adds
  `1.0` points in the source and `2` half-points here, a draw adds `0.5`
  points there and `1` half-point here.  Order and equality of scores are
  unchanged by this scaling.  Sonneborn-Berger values, which mix weights `1`
  and `0.5`, are represented in quarter-points.
* Player ids (uuid strings in the source) are `Nat`; timestamps are `Int`
  (the only operations used on them are comparison and adding a number of
  minutes or hours).
* Python's `sorted` is a stable sort; it is embedded as
  `List.insertionSort`, which is also stable and agrees with every stable
  sort whenever the comparison is a total preorder.
* Fallible endpoints are embedded as `Except`-valued functions; each
  `HTTPException` branch of the source becomes an error constructor, raised
  before any mutation, so an error result leaves every record unchanged.
-/

/-- Outcome of a pairing, from `app/models/pairing.py` (`GameResult`). -/
inductive GameResult where
  | pending
  | white_wins
  | black_wins
  | draw
  | white_forfeit
  | black_forfeit
  | double_forfeit
  | bye
deriving DecidableEq

/-- Tournament status, from `app/models/tournament.py` (`TournamentStatus`). -/
inductive TournamentStatus where
  | registration
  | active
  | completed
  | cancelled
deriving DecidableEq

/-- The fields of the `Tournament` model used by the result lifecycle. -/
structure Tournament where
  is_online : Bool
  status : TournamentStatus
  /-- Confirmation window in minutes (`result_confirmation_minutes`). -/
  result_confirmation_minutes : Int
  total_rounds : Int
  current_round : Int
deriving DecidableEq

/-- A `Pairing` record, from `app/models/pairing.py` (the fields the result
lifecycle and tiebreak computations read or write). -/
structure Pairing where
  round_number : Nat
  board_number : Nat
  white_player_id : Option Nat
  black_player_id : Option Nat
  result : GameResult
  deadline : Option Int
  played_at : Option Int
  no_show_claimed_by : Option Nat
  claimed_result : Option GameResult
  claimed_by : Option Nat
  claimed_at : Option Int
  confirmation_deadline : Option Int
  confirmed_by : Option Nat
  confirmed_at : Option Int
  is_disputed : Bool
  dispute_reason : Option String
deriving DecidableEq

/-- `Pairing.is_bye` from `app/models/pairing.py`. -/
def Pairing.is_bye (p : Pairing) : Bool :=
  p.result = GameResult.bye ∨ p.white_player_id = none ∨ p.black_player_id = none

/-- `Pairing.has_pending_claim` from `app/models/pairing.py`: a result claim
is waiting for confirmation. -/
def Pairing.has_pending_claim (p : Pairing) : Bool :=
  p.claimed_result ≠ none ∧ p.result = GameResult.pending ∧
    p.is_disputed = false ∧ p.confirmed_at = none

/-- A `TournamentPlayer` roster entry, from `app/models/tournament.py`.
`score` and `buchholz` are in half-points. -/
structure TournamentPlayer where
  player_id : Nat
  seed_rating : Int
  score : Int
  wins : Nat
  draws : Nat
  losses : Nat
  buchholz : Int
  games_as_white : Nat
  games_as_black : Nat
  final_rank : Option Nat
  is_withdrawn : Bool
deriving DecidableEq

/-- Apply `f` to the roster entry (entries) whose `player_id` matches the
given optional id; when the id is `none` the roster is unchanged.  This is
the effect of the source's `scalar_one_or_none` lookup followed by an
in-place mutation (player ids are unique per tournament by a database
constraint). -/
def updateEntry (pid : Option Nat) (f : TournamentPlayer → TournamentPlayer) :
    List TournamentPlayer → List TournamentPlayer
  | roster =>
    match pid with
    | none => roster
    | some i => roster.map fun tp => if tp.player_id = i then f tp else tp

/-- `_update_player_scores` from `app/routers/pairings.py` (identical to
`update_player_scores` in `app/services/tournament_automation.py`):
dispatch on the pairing's result and update both players' roster entries.
Scores are in half-points (`+ 2` is the source's `+= 1.0`, `+ 1` its
`+= 0.5`). -/
def update_player_scores (p : Pairing) (roster : List TournamentPlayer) :
    List TournamentPlayer :=
  if p.is_bye then roster else
  match p.result with
  | GameResult.white_wins =>
      updateEntry p.black_player_id
        (fun tp => { tp with losses := tp.losses + 1,
                             games_as_black := tp.games_as_black + 1 })
        (updateEntry p.white_player_id
          (fun tp => { tp with score := tp.score + 2, wins := tp.wins + 1,
                               games_as_white := tp.games_as_white + 1 }) roster)
  | GameResult.black_wins =>
      updateEntry p.white_player_id
        (fun tp => { tp with losses := tp.losses + 1,
                             games_as_white := tp.games_as_white + 1 })
        (updateEntry p.black_player_id
          (fun tp => { tp with score := tp.score + 2, wins := tp.wins + 1,
                               games_as_black := tp.games_as_black + 1 }) roster)
  | GameResult.draw =>
      updateEntry p.black_player_id
        (fun tp => { tp with score := tp.score + 1, draws := tp.draws + 1,
                             games_as_black := tp.games_as_black + 1 })
        (updateEntry p.white_player_id
          (fun tp => { tp with score := tp.score + 1, draws := tp.draws + 1,
                               games_as_white := tp.games_as_white + 1 }) roster)
  | GameResult.white_forfeit =>
      updateEntry p.white_player_id
        (fun tp => { tp with losses := tp.losses + 1 })
        (updateEntry p.black_player_id
          (fun tp => { tp with score := tp.score + 2, wins := tp.wins + 1 }) roster)
  | GameResult.black_forfeit =>
      updateEntry p.black_player_id
        (fun tp => { tp with losses := tp.losses + 1 })
        (updateEntry p.white_player_id
          (fun tp => { tp with score := tp.score + 2, wins := tp.wins + 1 }) roster)
  | GameResult.double_forfeit =>
      updateEntry p.black_player_id
        (fun tp => { tp with losses := tp.losses + 1 })
        (updateEntry p.white_player_id
          (fun tp => { tp with losses := tp.losses + 1 }) roster)
  | _ => roster

/-- Named rejection reasons of the result-lifecycle endpoints; each is one
`HTTPException` branch of `app/routers/pairings.py`. -/
inductive LifecycleError where
  | onlineTournament
  | tournamentNotActive
  | notParticipant
  | resultAlreadyRecorded
  | claimAlreadyPending
  | invalidResult
  | noPendingClaim
  | ownClaim
deriving DecidableEq

/-- Whether the acting player is one of the two players of the pairing. -/
def Pairing.isParticipant (p : Pairing) (cur : Nat) : Prop :=
  some cur = p.white_player_id ∨ some cur = p.black_player_id

instance (p : Pairing) (cur : Nat) : Decidable (p.isParticipant cur) :=
  inferInstanceAs (Decidable (_ ∨ _))

/-- `claim_result` from `app/routers/pairings.py`: a participant of an
in-person tournament proposes a result.  The checks appear in the order of
the source; on success the claim fields are set and the outcome stays
`pending`. -/
def claim_result (t : Tournament) (p : Pairing) (cur : Nat)
    (res : GameResult) (now : Int) : Except LifecycleError Pairing :=
  if t.is_online then .error .onlineTournament
  else if t.status ≠ TournamentStatus.active then .error .tournamentNotActive
  else if ¬ p.isParticipant cur then .error .notParticipant
  else if p.result ≠ GameResult.pending then .error .resultAlreadyRecorded
  else if p.has_pending_claim then .error .claimAlreadyPending
  else if ¬ (res = GameResult.white_wins ∨ res = GameResult.black_wins ∨
             res = GameResult.draw) then .error .invalidResult
  else .ok { p with
    claimed_result := some res,
    claimed_by := some cur,
    claimed_at := some now,
    confirmation_deadline := some (now + t.result_confirmation_minutes) }

/-- `confirm_result` from `app/routers/pairings.py`: the non-claiming
participant confirms the claimed result.  On success the outcome becomes the
claimed result (which the `has_pending_claim` guard guarantees to be set, so
the `getD` default is never reached) and the claim fields are retained. -/
def confirm_result (p : Pairing) (cur : Nat) (now : Int) :
    Except LifecycleError Pairing :=
  if ¬ p.has_pending_claim then .error .noPendingClaim
  else if ¬ p.isParticipant cur then .error .notParticipant
  else if some cur = p.claimed_by then .error .ownClaim
  else .ok { p with
    result := p.claimed_result.getD GameResult.pending,
    confirmed_by := some cur,
    confirmed_at := some now,
    played_at := some now }

/-- `confirm_result` together with the `_update_player_scores` call it makes
on success. -/
def confirm_result_full (p : Pairing) (roster : List TournamentPlayer)
    (cur : Nat) (now : Int) :
    Except LifecycleError (Pairing × List TournamentPlayer) :=
  match confirm_result p cur now with
  | .error e => .error e
  | .ok p' => .ok (p', update_player_scores p' roster)

/-- `dispute_result` from `app/routers/pairings.py`: the non-claiming
participant disputes the claim, supplying a reason (the request schema makes
the reason mandatory).  The outcome is not changed and no score update is
made. -/
def dispute_result (p : Pairing) (cur : Nat) (reason : String) :
    Except LifecycleError Pairing :=
  if ¬ p.has_pending_claim then .error .noPendingClaim
  else if ¬ p.isParticipant cur then .error .notParticipant
  else if some cur = p.claimed_by then .error .ownClaim
  else .ok { p with is_disputed := true, dispute_reason := some reason }

/-- `admin_override_result` from `app/routers/pairings.py`: an administrator
sets the outcome directly.  The score update runs only when the pairing was
still `pending` (`was_pending` in the source). -/
def admin_override_result (p : Pairing) (adminId : Nat) (newResult : GameResult)
    (now : Int) (roster : List TournamentPlayer) :
    Pairing × List TournamentPlayer :=
  let was_pending := p.result = GameResult.pending
  let p1 := { p with
    result := newResult,
    played_at := some now,
    confirmed_by := some adminId,
    confirmed_at := some now,
    is_disputed := false }
  let p2 := if p.claimed_result ≠ none then
      { p1 with claimed_result := none, claimed_by := none,
                claimed_at := none, confirmation_deadline := none }
    else p1
  (p2, if was_pending then update_player_scores p2 roster else roster)

/-- Selection condition of the deadline processor: the pairing is still
`pending` and its deadline has passed (`Pairing.deadline < now`; a `NULL`
deadline never satisfies the SQL comparison). -/
def expiredEligible (now : Int) (p : Pairing) : Bool :=
  (p.result = GameResult.pending : Bool) &&
    match p.deadline with
    | some d => d < now
    | none => false

/-- Resolution of one expired pairing, from `process_expired_deadlines`
(`app/services/tournament_automation.py`, identical in
`app/routers/pairings.py`): if a no-show was claimed, the accused side (the
side that did not make the claim) is forfeited, otherwise the pairing is
double-forfeited. -/
def resolveExpired (now : Int) (p : Pairing) : Pairing :=
  let r := match p.no_show_claimed_by with
    | some c =>
        if some c = p.white_player_id then GameResult.black_forfeit
        else GameResult.white_forfeit
    | none => GameResult.double_forfeit
  { p with result := r, played_at := some now }

/-- `process_expired_deadlines`: walk the tournament's pairings, resolve each
eligible one, apply the score update, and count the processed records. -/
def process_expired_deadlines (now : Int) :
    List Pairing → List TournamentPlayer →
    List Pairing × List TournamentPlayer × Nat
  | [], roster => ([], roster, 0)
  | p :: ps, roster =>
    if expiredEligible now p then
      let p' := resolveExpired now p
      let rest := process_expired_deadlines now ps (update_player_scores p' roster)
      (p' :: rest.1, rest.2.1, rest.2.2 + 1)
    else
      let rest := process_expired_deadlines now ps roster
      (p :: rest.1, rest.2.1, rest.2.2)

/-- Player data consumed by the pairing engines, from `app/services/swiss.py`
(`SwissPlayer`).  `score` is in half-points; `opponents` is the set of
opponent ids already played. -/
structure SwissPlayer where
  id : Nat
  score : Int
  rating : Int
  games_as_white : Nat
  games_as_black : Nat
  opponents : List Nat
  is_withdrawn : Bool
deriving DecidableEq

/-- `SwissPlayer.color_balance`: positive means more games as white. -/
def SwissPlayer.color_balance (p : SwissPlayer) : Int :=
  (p.games_as_white : Int) - (p.games_as_black : Int)

/-- `SwissPlayer.needs_white`. -/
def SwissPlayer.needs_white (p : SwissPlayer) : Bool := p.color_balance < 0

/-- `SwissPlayer.needs_black`. -/
def SwissPlayer.needs_black (p : SwissPlayer) : Bool := p.color_balance > 0

/-- One produced pairing, from `app/services/swiss.py` (`SwissPairing`).
The source stores the empty string for a bye's missing opponent; we use
`none`, matching the conversion to a NULL `black_player_id` made by every
caller. -/
structure SwissPairing where
  white_id : Nat
  black_id : Option Nat
  board_number : Nat
  is_bye : Bool
deriving DecidableEq

/-- Descending-rating comparison used by round 1 (`sorted` with
`key=rating, reverse=True`; stable on ties). -/
def ratingDesc (a b : SwissPlayer) : Prop := b.rating ≤ a.rating

instance : DecidableRel ratingDesc := fun _ _ =>
  inferInstanceAs (Decidable (_ ≤ _))

/-- The engine constructor's filter: withdrawn players are dropped. -/
def activePlayers (players : List SwissPlayer) : List SwissPlayer :=
  players.filter fun p => !p.is_withdrawn

/-- The top-half/bottom-half pairing step of round 1: split the (already
sorted, even-sized) list in halves and pair rank `i` of the top half, as
white, against rank `i` of the bottom half, on board `i + 1`. -/
def pairHalves (t : List SwissPlayer) : List SwissPairing :=
  ((t.take (t.length / 2)).zip (t.drop (t.length / 2))).enum.map fun x =>
    { white_id := x.2.1.id, black_id := some x.2.2.id,
      board_number := x.1 + 1, is_bye := false }

/-- `SwissPairingEngine.generate_round_1_pairings`: sort the active players
by rating descending; if their number is odd the last (lowest-rated) player
is removed and given a bye first; the rest is split in halves and rank `i`
of the top half plays white against rank `i` of the bottom half, on board
`i + 1`. -/
def generate_round_1_pairings (players : List SwissPlayer) : List SwissPairing :=
  let sorted := List.insertionSort ratingDesc (activePlayers players)
  if sorted.length % 2 = 1 then
    (match sorted.getLast? with
     | some bp => [{ white_id := bp.id, black_id := none,
                     board_number := 0, is_bye := true }]
     | none => []) ++ pairHalves sorted.dropLast
  else pairHalves sorted

/-- `SwissPairingEngine._assign_colors`: color assignment by color balance,
falling back to giving white to the higher-rated player.  Returns
`(white_id, black_id)`. -/
def assign_colors (p1 p2 : SwissPlayer) : Nat × Nat :=
  if p1.needs_white ∧ ¬ p2.needs_white then (p1.id, p2.id)
  else if p2.needs_white ∧ ¬ p1.needs_white then (p2.id, p1.id)
  else if p1.needs_black ∧ ¬ p2.needs_black then (p2.id, p1.id)
  else if p2.needs_black ∧ ¬ p1.needs_black then (p1.id, p2.id)
  else if p2.rating ≤ p1.rating then (p1.id, p2.id)
  else (p2.id, p1.id)

/-- The opponent scan of the inner pairing loop: find the first player of
`avail` that `p1` has not yet played, returning it together with the list
with that player removed. -/
def findOpponent (p1 : SwissPlayer) : List SwissPlayer →
    Option (SwissPlayer × List SwissPlayer)
  | [] => none
  | p2 :: rest =>
    if p1.opponents.contains p2.id then
      match findOpponent p1 rest with
      | some (q, rest') => some (q, p2 :: rest')
      | none => none
    else some (p2, rest)

theorem findOpponent_length (p1 : SwissPlayer) :
    ∀ l q rest', findOpponent p1 l = some (q, rest') →
      rest'.length + 1 = l.length := by
  intro l
  induction l with
  | nil => intro q rest' h; simp [findOpponent] at h
  | cons p2 rest ih =>
    intro q rest' h
    simp only [findOpponent] at h
    split at h
    · cases hfo : findOpponent p1 rest with
      | none => rw [hfo] at h; exact absurd h (by simp)
      | some pr =>
        rw [hfo] at h
        obtain ⟨q', rest''⟩ := pr
        simp only [Option.some.injEq, Prod.mk.injEq] at h
        obtain ⟨hq, hr⟩ := h
        subst hq; subst hr
        have := ih _ _ hfo
        simp only [List.length_cons]
        omega
    · simp only [Option.some.injEq, Prod.mk.injEq] at h
      obtain ⟨hq, hr⟩ := h
      subst hr; simp

/-- The `while len(available) >= 2` loop of
`SwissPairingEngine._generate_swiss_pairings`, for one score group:
repeatedly take the first available player, pair them with the first
available opponent they have not played (colors by `_assign_colors`, board
number continuing from `nb` pairings made so far), or move them to the
unpaired carry when no such opponent exists; at most one player is left
over and joins the carry.  Returns the pairings made and the unpaired
players in order.  The loop consumes at least one player per iteration, so
it is written with a structural fuel argument; callers pass the length of
the available list, which is always sufficient. -/
def pairLoop (fuel : Nat) (nb : Nat) (avail : List SwissPlayer) :
    List SwissPairing × List SwissPlayer :=
  match fuel, avail with
  | 0, l => ([], l)
  | _ + 1, [] => ([], [])
  | _ + 1, [p] => ([], [p])
  | fuel + 1, p1 :: p2 :: rest =>
    match findOpponent p1 (p2 :: rest) with
    | some (q, rest') =>
      let wb := assign_colors p1 q
      let next := pairLoop fuel (nb + 1) rest'
      ({ white_id := wb.1, black_id := some wb.2,
         board_number := nb + 1, is_bye := false } :: next.1, next.2)
    | none =>
      let next := pairLoop fuel nb (p2 :: rest)
      (next.1, p1 :: next.2)

/-- Ids appearing in a list of generated pairings (each side of each
pairing). -/
def idsOfPairings (prs : List SwissPairing) : List Nat :=
  prs.flatMap fun pr => pr.white_id :: pr.black_id.toList

/-- The outer loop of `_generate_swiss_pairings` over score groups: each
group is prepended with the carry from the previous one, filtered by the
already-paired ids, and paired by `pairLoop`; the final carry is returned
as the unpaired players. -/
def processGroups (nb : Nat) (pairedIds : List Nat) (carry : List SwissPlayer) :
    List (List SwissPlayer) → List SwissPairing × List SwissPlayer
  | [] => ([], carry)
  | g :: gs =>
    let avail := (carry ++ g).filter fun p => !pairedIds.contains p.id
    let res := pairLoop avail.length nb avail
    let rest := processGroups (nb + res.1.length)
      (pairedIds ++ idsOfPairings res.1) res.2 gs
    (res.1 ++ rest.1, rest.2)

/-- Descending `(score, rating)` comparison used by rounds `≥ 2`
(`sorted` with `key=(score, rating), reverse=True`; stable on full ties). -/
def scoreRatingDesc (a b : SwissPlayer) : Prop :=
  b.score < a.score ∨ (b.score = a.score ∧ b.rating ≤ a.rating)

instance : DecidableRel scoreRatingDesc := fun _ _ =>
  inferInstanceAs (Decidable (_ ∨ _))

/-- Strict ascending `(score, rating)` comparison, the key order of the
source's `min(unpaired, key=lambda p: (p.score, p.rating))`. -/
def srKeyLt (a b : SwissPlayer) : Prop :=
  a.score < b.score ∨ (a.score = b.score ∧ a.rating < b.rating)

instance : DecidableRel srKeyLt := fun _ _ =>
  inferInstanceAs (Decidable (_ ∨ _))

/-- Non-strict version of `srKeyLt`. -/
def srKeyLe (a b : SwissPlayer) : Prop :=
  a.score < b.score ∨ (a.score = b.score ∧ a.rating ≤ b.rating)

/-- Python's `min` with a key: scan the list keeping the current minimum,
replacing it only when a strictly smaller key appears (so the first
minimum wins ties). -/
def minBySR (x : SwissPlayer) (l : List SwissPlayer) : SwissPlayer :=
  l.foldl (fun m q => if srKeyLt q m then q else m) x

/-- The score groups of `_generate_swiss_pairings`: the active players are
sorted by `(score, rating)` descending and grouped by score; groups are
processed from the highest score to the lowest.  The distinct scores of the
sorted list are already in descending order, so deduplicating them yields
the processing order of the source's `sorted(score_groups.keys(),
reverse=True)`. -/
def swissScoreGroups (players : List SwissPlayer) : List (List SwissPlayer) :=
  let sorted := List.insertionSort scoreRatingDesc (activePlayers players)
  ((sorted.map (·.score)).dedup).map fun s => sorted.filter fun p => p.score = s

/-- The unpaired players remaining after all score groups of
`_generate_swiss_pairings` have been processed. -/
def swissUnpaired (players : List SwissPlayer) : List SwissPlayer :=
  (processGroups 0 [] [] (swissScoreGroups players)).2

/-- `SwissPairingEngine._generate_swiss_pairings` (rounds `≥ 2`): pair the
score groups from highest to lowest, then, if any players are left unpaired,
give a single bye to the one with the lowest `(score, rating)`. -/
def generate_swiss_pairings (players : List SwissPlayer) : List SwissPairing :=
  let res := processGroups 0 [] [] (swissScoreGroups players)
  match res.2 with
  | [] => res.1
  | u :: us =>
      let byePlayer := minBySR u us
      res.1 ++ [{ white_id := byePlayer.id, black_id := none,
                  board_number := 0, is_bye := true }]

/-- Number of players seen by `RoundRobinEngine.__init__`: the active
players, plus one synthetic `BYE` entry when their number is odd. -/
def roundRobinPlayerCount (players : List SwissPlayer) : Nat :=
  let n0 := (activePlayers players).length
  if n0 % 2 = 1 then n0 + 1 else n0

/-- `RoundRobinEngine.get_total_rounds`: `self.n - 1`, with `self.n` the
player count after the possible bye injection. -/
def get_total_rounds (players : List SwissPlayer) : Int :=
  (roundRobinPlayerCount players : Int) - 1

/-- The round-count requirement recomputed by the `generate_pairings` router
(`app/routers/pairings.py`): `n - 1` rounds for an even number of players,
`n` for an odd number. -/
def roundRobinRequiredRounds (n : Nat) : Int :=
  if n % 2 = 0 then (n : Int) - 1 else n

/-- The router's round-robin validation: the request is rejected when the
tournament's configured `total_rounds` is below the requirement. -/
def roundRobinValidationRejects (n : Nat) (total_rounds : Int) : Bool :=
  total_rounds < roundRobinRequiredRounds n

/-- The non-withdrawn roster entries, as queried by `finalize_tournament`
(`app/services/tournament_automation.py`). -/
def activeEntries (roster : List TournamentPlayer) : List TournamentPlayer :=
  roster.filter fun tp => !tp.is_withdrawn

/-- The `player_scores` dictionary of `finalize_tournament`: the current
score of a non-withdrawn player, and `0` for ids absent from that
dictionary (`player_scores.get(id, 0)`). -/
def scoreLookup (actives : List TournamentPlayer) (pid : Nat) : Int :=
  ((actives.find? fun tp => tp.player_id = pid).map (·.score)).getD 0

/-- The head-to-head map of `finalize_tournament`: walking all pairings in
order, a pairing between `a` and `b` with a recorded win/loss/draw sets the
entry for `(a, b)` (later pairings overwrite earlier ones); pairings with a
missing side or any other result leave it unchanged.  Values are in
half-points: the source's `1` is `2`, its `0.5` is `1`. -/
def h2hLookup (pairings : List Pairing) (a b : Nat) : Option Int :=
  pairings.foldl
    (fun acc p =>
      match p.white_player_id, p.black_player_id with
      | some w, some bl =>
        if w = a ∧ bl = b then
          match p.result with
          | GameResult.white_wins => some 2
          | GameResult.black_wins => some 0
          | GameResult.draw => some 1
          | _ => acc
        else if w = b ∧ bl = a then
          match p.result with
          | GameResult.white_wins => some 0
          | GameResult.black_wins => some 2
          | GameResult.draw => some 1
          | _ => acc
        else acc
      | _, _ => acc)
    none

/-- The Buchholz computation of `finalize_tournament`: for every pairing in
which the player took part and the other side is present, add that
opponent's current score (any result, byes excluded by the missing-side
test). -/
def finalizeBuchholz (actives : List TournamentPlayer) (pairings : List Pairing)
    (pid : Nat) : Int :=
  pairings.foldl
    (fun acc p =>
      match p.white_player_id, p.black_player_id with
      | some w, some bl =>
        if w = pid then acc + scoreLookup actives bl
        else if bl = pid then acc + scoreLookup actives w
        else acc
      | _, _ => acc)
    0

/-- The active roster entries with their `buchholz` field filled in, the
state of `players` when `finalize_tournament` reaches its sort. -/
def withBuchholz (roster : List TournamentPlayer) (pairings : List Pairing) :
    List TournamentPlayer :=
  let actives := activeEntries roster
  actives.map fun tp =>
    { tp with buchholz := finalizeBuchholz actives pairings tp.player_id }

/-- The `compare_players` comparator of `finalize_tournament`: score
descending, then Buchholz descending, then the head-to-head result when the
two players have a recorded game that was not a draw, then total wins
descending.  Only the sign of the returned value is used. -/
def compare_players (h2h : Nat → Nat → Option Int)
    (tp1 tp2 : TournamentPlayer) : Int :=
  if tp1.score ≠ tp2.score then tp2.score - tp1.score
  else if tp1.buchholz ≠ tp2.buchholz then tp2.buchholz - tp1.buchholz
  else
    match h2h tp1.player_id tp2.player_id with
    | some v =>
        if v = 2 then -1
        else if v = 0 then 1
        else (tp2.wins : Int) - (tp1.wins : Int)
    | none => (tp2.wins : Int) - (tp1.wins : Int)

/-- The sort order induced by `compare_players` through `cmp_to_key`:
`a` may come before `b` exactly when the comparator does not order `b`
strictly first. -/
def finalizeLe (h2h : Nat → Nat → Option Int) (a b : TournamentPlayer) : Prop :=
  compare_players h2h a b ≤ 0

instance (h2h : Nat → Nat → Option Int) : DecidableRel (finalizeLe h2h) :=
  fun _ _ => inferInstanceAs (Decidable (_ ≤ _))

/-- The sorted player list of `finalize_tournament` (Python's stable
`sorted` with `cmp_to_key(compare_players)`). -/
def rankedPlayers (roster : List TournamentPlayer) (pairings : List Pairing) :
    List TournamentPlayer :=
  List.insertionSort (finalizeLe (h2hLookup pairings)) (withBuchholz roster pairings)

/-- The final-rank assignment loop of `finalize_tournament`: position `i`
of the sorted list receives rank `i + 1`. -/
def assignRanks (i : Nat) : List TournamentPlayer → List TournamentPlayer
  | [] => []
  | tp :: rest => { tp with final_rank := some (i + 1) } :: assignRanks (i + 1) rest

/-- `finalize_tournament`: compute Buchholz values, sort with
`compare_players`, and assign final ranks `1..N`. -/
def finalize_tournament (roster : List TournamentPlayer)
    (pairings : List Pairing) : List TournamentPlayer :=
  assignRanks 0 (rankedPlayers roster pairings)

/-- The final rank the finalization gives to a player id. -/
def finalRankOf (roster : List TournamentPlayer) (pairings : List Pairing)
    (pid : Nat) : Option Nat :=
  ((finalize_tournament roster pairings).find? fun tp => tp.player_id = pid).bind
    (·.final_rank)

/-- `calculate_sonneborn_berger` from `app/services/swiss.py`: the sum over
the recorded game results of the opponent's score weighted by the points
earned against them.  `game_results` maps an opponent id to the result
(`some true` a win, `some false` a draw, `none` a loss, mirroring the
source's `'win'/'draw'/'loss'` strings); opponents absent from
`all_players` are skipped.  The result is in quarter-points: a win against
an opponent contributes twice the opponent's half-point score, a draw
contributes it once. -/
def calculate_sonneborn_berger (all_players : List TournamentPlayer)
    (game_results : List (Nat × Option Bool)) : Int :=
  game_results.foldl
    (fun total gr =>
      match (all_players.find? fun tp => tp.player_id = gr.1) with
      | none => total
      | some opp =>
        match gr.2 with
        | some true => total + 2 * opp.score
        | some false => total + opp.score
        | none => total)
    0

/-- Modelled from the spec: the per-opponent game results of a player,
derived from the recorded pairings (win/draw/loss of `pid` against each
opponent), in the encoding taken by `calculate_sonneborn_berger`. -/
def gameResultsOf (pairings : List Pairing) (pid : Nat) :
    List (Nat × Option Bool) :=
  pairings.filterMap fun p =>
    match p.white_player_id, p.black_player_id with
    | some w, some bl =>
      if w = pid then
        match p.result with
        | GameResult.white_wins => some (bl, some true)
        | GameResult.draw => some (bl, some false)
        | GameResult.black_wins => some (bl, none)
        | _ => none
      else if bl = pid then
        match p.result with
        | GameResult.black_wins => some (w, some true)
        | GameResult.draw => some (w, some false)
        | GameResult.white_wins => some (w, none)
        | _ => none
      else none
    | _, _ => none

/-- Modelled from the spec: the Sonneborn-Berger value of a player, in
quarter-points, obtained by feeding the recorded results into
`calculate_sonneborn_berger`. -/
def specSonnebornBerger (actives : List TournamentPlayer)
    (pairings : List Pairing) (pid : Nat) : Int :=
  calculate_sonneborn_berger actives (gameResultsOf pairings pid)

/-- Modelled from the spec: the final-ranking order the specification
describes — score (desc), then Buchholz (desc), then Sonneborn-Berger
(desc), then head-to-head (the winner of the direct game ranks above the
loser), then total wins (desc).  `specRanksAbove roster pairings a b` holds
when the spec's chain places player id `a` strictly above player id `b`. -/
def specRanksAbove (roster : List TournamentPlayer) (pairings : List Pairing)
    (a b : Nat) : Bool :=
  let actives := activeEntries roster
  match (actives.find? fun tp => tp.player_id = a),
        (actives.find? fun tp => tp.player_id = b) with
  | some ta, some tb =>
    let bucha := finalizeBuchholz actives pairings a
    let buchb := finalizeBuchholz actives pairings b
    let sba := specSonnebornBerger actives pairings a
    let sbb := specSonnebornBerger actives pairings b
    decide (tb.score < ta.score ∨
    (tb.score = ta.score ∧
      (buchb < bucha ∨
      (buchb = bucha ∧
        (sbb < sba ∨
        (sbb = sba ∧
          (h2hLookup pairings a b = some 2 ∨
          (h2hLookup pairings a b ≠ some 2 ∧ h2hLookup pairings a b ≠ some 0 ∧
            tb.wins < ta.wins))))))))
  | _, _ => false

/-- Look up a roster entry by player id (first match, unique by the database
constraint). -/
def findEntry (roster : List TournamentPlayer) (pid : Nat) :
    Option TournamentPlayer :=
  roster.find? fun tp => tp.player_id = pid

theorem findEntry_eq_pid {roster : List TournamentPlayer} {w : Nat}
    {tp : TournamentPlayer} (h : findEntry roster w = some tp) :
    tp.player_id = w := by
  have := List.find?_some h
  simpa using this

theorem findEntry_updateEntry (i : Nat) (f : TournamentPlayer → TournamentPlayer)
    (hf : ∀ tp, (f tp).player_id = tp.player_id)
    (roster : List TournamentPlayer) (w : Nat) :
    findEntry (updateEntry (some i) f roster) w =
      (findEntry roster w).map fun tp => if tp.player_id = i then f tp else tp := by
  unfold findEntry updateEntry
  rw [List.find?_map]
  have hpred : ((fun tp => decide (tp.player_id = w)) ∘
      fun tp => if tp.player_id = i then f tp else tp) =
      fun tp : TournamentPlayer => decide (tp.player_id = w) := by
    funext tp
    by_cases h : tp.player_id = i <;> simp [Function.comp, h, hf]
  rw [hpred]

theorem findEntry_updateEntry_ne (i : Nat) (f : TournamentPlayer → TournamentPlayer)
    (hf : ∀ tp, (f tp).player_id = tp.player_id)
    (roster : List TournamentPlayer) (w : Nat) (hne : w ≠ i) :
    findEntry (updateEntry (some i) f roster) w = findEntry roster w := by
  rw [findEntry_updateEntry i f hf]
  cases h : findEntry roster w with
  | none => rfl
  | some tp =>
    have hp := findEntry_eq_pid h
    simp [hp, hne]

theorem findEntry_updateEntry_eq (i : Nat) (f : TournamentPlayer → TournamentPlayer)
    (hf : ∀ tp, (f tp).player_id = tp.player_id)
    (roster : List TournamentPlayer) :
    findEntry (updateEntry (some i) f roster) i = (findEntry roster i).map f := by
  rw [findEntry_updateEntry i f hf]
  cases h : findEntry roster i with
  | none => rfl
  | some tp =>
    have hp := findEntry_eq_pid h
    simp [hp]

theorem updateEntry_none (f : TournamentPlayer → TournamentPlayer)
    (roster : List TournamentPlayer) : updateEntry none f roster = roster := rfl

/-- Decidable equality for `Except`, used to evaluate the endpoint models on
concrete inputs. -/
instance {e a : Type} [DecidableEq e] [DecidableEq a] : DecidableEq (Except e a) := fun x y =>
  match x, y with
  | .ok v, .ok w =>
    if h : v = w then isTrue (by rw [h]) else isFalse (fun hc => by cases hc; exact h rfl)
  | .error v, .error w =>
    if h : v = w then isTrue (by rw [h]) else isFalse (fun hc => by cases hc; exact h rfl)
  | .ok _, .error _ => isFalse (fun hc => by cases hc)
  | .error _, .ok _ => isFalse (fun hc => by cases hc)

/-- An in-person, active tournament with a 10-minute confirmation window. -/
def exTournament : Tournament :=
  { is_online := false, status := TournamentStatus.active,
    result_confirmation_minutes := 10, total_rounds := 3, current_round := 1 }

/-- A pending pairing of players 1 (white) and 2 (black) with no claim. -/
def exCleanPairing : Pairing :=
  { round_number := 1, board_number := 1,
    white_player_id := some 1, black_player_id := some 2,
    result := GameResult.pending, deadline := some 1000, played_at := none,
    no_show_claimed_by := none, claimed_result := none, claimed_by := none,
    claimed_at := none, confirmation_deadline := none, confirmed_by := none,
    confirmed_at := none, is_disputed := false, dispute_reason := none }

/-- A pairing whose claim (a draw, claimed by player 1) has been disputed:
the outcome is still pending and the claim fields are set. -/
def exDisputedPairing : Pairing :=
  { exCleanPairing with
    claimed_result := some GameResult.draw,
    claimed_by := some 1, claimed_at := some 50,
    confirmation_deadline := some 60, is_disputed := true,
    dispute_reason := some "wrong" }

/-- A pairing with an outstanding undisputed claim of `white_wins` by
player 1, claimed at time 100 under a 10-minute window. -/
def exClaimedPairing : Pairing :=
  { exCleanPairing with
    claimed_result := some GameResult.white_wins,
    claimed_by := some 1, claimed_at := some 100,
    confirmation_deadline := some 110 }

/-- A pairing with an outstanding undisputed claim of a draw by player 1. -/
def exClaimedDrawPairing : Pairing :=
  { exCleanPairing with
    claimed_result := some GameResult.draw,
    claimed_by := some 1, claimed_at := some 100,
    confirmation_deadline := some 110 }

/-- A fresh roster entry for the given player id. -/
def exEntry (pid : Nat) : TournamentPlayer :=
  { player_id := pid, seed_rating := 1500, score := 0, wins := 0, draws := 0,
    losses := 0, buchholz := 0, games_as_white := 0, games_as_black := 0,
    final_rank := none, is_withdrawn := false }

/-- A two-player roster for players 1 and 2. -/
def exRoster : List TournamentPlayer := [exEntry 1, exEntry 2]

/-- `exClaimedPairing` after player 2 confirms at time 200. -/
def exConfirmedPairing : Pairing :=
  { exClaimedPairing with
    result := GameResult.white_wins,
    confirmed_by := some 2, confirmed_at := some 200, played_at := some 200 }

/-- The roster after the score update for `exConfirmedPairing`. -/
def exConfirmedRoster : List TournamentPlayer :=
  update_player_scores exConfirmedPairing exRoster

/-- A pending pairing whose deadline (10) has passed. -/
def exExpiredPairing : Pairing := { exCleanPairing with deadline := some 10 }

/-- C2 (amended): `claim_result` is rejected with no state change whenever
the pairing's outcome is not pending, or an undisputed, unconfirmed claim is
outstanding (`has_pending_claim`); a disputed claim, however, may be
replaced by a new claim.  When a claim is accepted it records the claimer
and the claim time and sets `confirmation_deadline` to the claim time plus
the tournament's confirmation window, leaving the outcome pending. -/
theorem claim_result_C2 (t : Tournament) (p : Pairing) (cur : Nat)
    (res : GameResult) (now : Int) :
    (p.result ≠ GameResult.pending ∨ p.has_pending_claim = true →
      ∀ p', claim_result t p cur res now ≠ .ok p') ∧
    (∀ p', claim_result t p cur res now = .ok p' →
      p'.claimed_by = some cur ∧ p'.claimed_at = some now ∧
      p'.confirmation_deadline = some (now + t.result_confirmation_minutes) ∧
      p'.result = GameResult.pending ∧ p'.claimed_result = some res) := by
  constructor
  · intro h p' hok
    unfold claim_result at hok
    split_ifs at hok with h1 h2 h3 h4 h5 h6 <;> simp_all
  · intro p' hok
    unfold claim_result at hok
    split_ifs at hok with h1 h2 h3 h4 h5 h6 <;> simp_all
    cases hok
    simp_all

/-- C2, counterexample to the original claim: `exDisputedPairing` carries an
outstanding (disputed) result claim by player 1, yet a new claim by player 2
is accepted and overwrites it, rather than being rejected. -/
theorem claim_result_C2_counterexample :
    exDisputedPairing.claimed_result ≠ none ∧
    exDisputedPairing.result = GameResult.pending ∧
    claim_result exTournament exDisputedPairing 2 GameResult.white_wins 100 =
      .ok { exDisputedPairing with
        claimed_result := some GameResult.white_wins,
        claimed_by := some 2, claimed_at := some 100,
        confirmation_deadline := some 110 } := by
  refine ⟨by decide, by decide, by decide⟩

/-- C2, witness: at the concrete inputs, a claim on an already-decided
pairing is rejected, and an accepted claim sets the claim fields as
stated. -/
theorem claim_result_C2_witness :
    claim_result exTournament { exCleanPairing with result := GameResult.white_wins }
      1 GameResult.draw 100 ≠ .ok exClaimedPairing ∧
    (exClaimedPairing.claimed_by = some 1 ∧ exClaimedPairing.claimed_at = some 100 ∧
     exClaimedPairing.confirmation_deadline = some (100 + exTournament.result_confirmation_minutes) ∧
     exClaimedPairing.result = GameResult.pending ∧
     exClaimedPairing.claimed_result = some GameResult.white_wins) :=
  ⟨(claim_result_C2 exTournament _ 1 GameResult.draw 100).1 (Or.inl (by decide))
      exClaimedPairing,
   (claim_result_C2 exTournament exCleanPairing 1 GameResult.white_wins 100).2
      exClaimedPairing (by decide)⟩

/-- C7: the claimer can neither confirm nor dispute their own claim (both
are rejected, and an error result carries no updated record, so no state
changes); a dispute by the non-claiming participant, which supplies a
reason, sets `is_disputed` and records the reason while the outcome stays
`pending` (the dispute endpoint makes no score update). -/
theorem dispute_result_C7 (p : Pairing) (cur : Nat) (now : Int)
    (reason : String) :
    (some cur = p.claimed_by →
      (∀ p', confirm_result p cur now ≠ .ok p') ∧
      (∀ p', dispute_result p cur reason ≠ .ok p')) ∧
    (p.has_pending_claim = true → p.isParticipant cur →
     some cur ≠ p.claimed_by →
      dispute_result p cur reason =
        .ok { p with is_disputed := true, dispute_reason := some reason } ∧
      p.result = GameResult.pending) := by
  constructor
  · intro hself
    constructor
    · intro p' hok
      unfold confirm_result at hok
      split_ifs at hok with h1 h2 h3 <;> simp_all
    · intro p' hok
      unfold dispute_result at hok
      split_ifs at hok with h1 h2 h3 <;> simp_all
  · intro hclaim hpart hne
    constructor
    · unfold dispute_result
      split_ifs with h1 h2 h3 <;> simp_all
    · have := hclaim
      unfold Pairing.has_pending_claim at this
      simp at this
      exact this.2.1

/-- C7, witness: in scenario C, player 1 claims a draw; player 1's own
confirmation and dispute are both rejected, while player 2's dispute is
accepted, setting the dispute flag and reason with the outcome still
pending. -/
theorem dispute_result_C7_witness :
    (confirm_result exClaimedDrawPairing 1 200 ≠ .ok exClaimedDrawPairing ∧
     dispute_result exClaimedDrawPairing 1 "mine" ≠ .ok exClaimedDrawPairing) ∧
    (dispute_result exClaimedDrawPairing 2 "bad" =
       .ok { exClaimedDrawPairing with
             is_disputed := true, dispute_reason := some "bad" } ∧
     exClaimedDrawPairing.result = GameResult.pending) :=
  ⟨⟨((dispute_result_C7 exClaimedDrawPairing 1 200 "mine").1 (by decide)).1
      exClaimedDrawPairing,
    ((dispute_result_C7 exClaimedDrawPairing 1 200 "mine").1 (by decide)).2
      exClaimedDrawPairing⟩,
   (dispute_result_C7 exClaimedDrawPairing 2 200 "bad").2 (by decide) (by decide)
     (by decide)⟩

/-- Effect of the score update for a confirmed `white_wins` on the two
players' entries and on everyone else. -/
theorem update_player_scores_white_wins (p : Pairing)
    (roster : List TournamentPlayer) (w b : Nat) (ew eb : TournamentPlayer)
    (hres : p.result = GameResult.white_wins)
    (hw : p.white_player_id = some w) (hb : p.black_player_id = some b)
    (hwb : w ≠ b)
    (hew : findEntry roster w = some ew) (heb : findEntry roster b = some eb) :
    findEntry (update_player_scores p roster) w = some { ew with
      score := ew.score + 2, wins := ew.wins + 1,
      games_as_white := ew.games_as_white + 1 } ∧
    findEntry (update_player_scores p roster) b = some { eb with
      losses := eb.losses + 1, games_as_black := eb.games_as_black + 1 } ∧
    (∀ q, q ≠ w → q ≠ b →
      findEntry (update_player_scores p roster) q = findEntry roster q) := by
  have hbye : p.is_bye = false := by
    unfold Pairing.is_bye
    simp [hres, hw, hb]
  unfold update_player_scores
  rw [hbye]
  simp only [Bool.false_eq_true, if_false, hres, hw, hb]
  refine ⟨?_, ?_, ?_⟩
  · rw [findEntry_updateEntry_ne b (fun tp => { tp with losses := tp.losses + 1, games_as_black := tp.games_as_black + 1 }) (fun _ => rfl) _ w hwb, findEntry_updateEntry_eq w (fun tp => { tp with score := tp.score + 2, wins := tp.wins + 1, games_as_white := tp.games_as_white + 1 }) (fun _ => rfl), hew]
    rfl
  · rw [findEntry_updateEntry_eq b (fun tp => { tp with losses := tp.losses + 1, games_as_black := tp.games_as_black + 1 }) (fun _ => rfl), findEntry_updateEntry_ne w (fun tp => { tp with score := tp.score + 2, wins := tp.wins + 1, games_as_white := tp.games_as_white + 1 }) (fun _ => rfl) _ b (Ne.symm hwb), heb]
    rfl
  · intro q hqw hqb
    rw [findEntry_updateEntry_ne b (fun tp => { tp with losses := tp.losses + 1, games_as_black := tp.games_as_black + 1 }) (fun _ => rfl) _ q hqb, findEntry_updateEntry_ne w (fun tp => { tp with score := tp.score + 2, wins := tp.wins + 1, games_as_white := tp.games_as_white + 1 }) (fun _ => rfl) _ q hqw]

/-- Effect of the score update for a `double_forfeit` on the two players'
entries and on everyone else: a loss for each side and no points. -/
theorem update_player_scores_double_forfeit (p : Pairing)
    (roster : List TournamentPlayer) (w b : Nat) (ew eb : TournamentPlayer)
    (hres : p.result = GameResult.double_forfeit)
    (hw : p.white_player_id = some w) (hb : p.black_player_id = some b)
    (hwb : w ≠ b)
    (hew : findEntry roster w = some ew) (heb : findEntry roster b = some eb) :
    findEntry (update_player_scores p roster) w =
      some { ew with losses := ew.losses + 1 } ∧
    findEntry (update_player_scores p roster) b =
      some { eb with losses := eb.losses + 1 } ∧
    (∀ q, q ≠ w → q ≠ b →
      findEntry (update_player_scores p roster) q = findEntry roster q) := by
  have hbye : p.is_bye = false := by
    unfold Pairing.is_bye
    simp [hres, hw, hb]
  unfold update_player_scores
  rw [hbye]
  simp only [Bool.false_eq_true, if_false, hres, hw, hb]
  refine ⟨?_, ?_, ?_⟩
  · rw [findEntry_updateEntry_ne b (fun tp => { tp with losses := tp.losses + 1 }) (fun _ => rfl) _ w hwb, findEntry_updateEntry_eq w (fun tp => { tp with losses := tp.losses + 1 }) (fun _ => rfl), hew]
    rfl
  · rw [findEntry_updateEntry_eq b (fun tp => { tp with losses := tp.losses + 1 }) (fun _ => rfl), findEntry_updateEntry_ne w (fun tp => { tp with losses := tp.losses + 1 }) (fun _ => rfl) _ b (Ne.symm hwb), heb]
    rfl
  · intro q hqw hqb
    rw [findEntry_updateEntry_ne b (fun tp => { tp with losses := tp.losses + 1 }) (fun _ => rfl) _ q hqb, findEntry_updateEntry_ne w (fun tp => { tp with losses := tp.losses + 1 }) (fun _ => rfl) _ q hqw]

/-- C4: confirming a claimed result succeeds exactly when a claim is
pending and the actor is a participant other than the claimer; on success
the outcome becomes the claimed outcome, confirmer and confirmation time
are recorded, the claim fields are retained, and the score update is
applied — for a confirmed `white_wins`, the white player's entry gains one
point (2 half-points) and one win, the black player's entry gains one loss
and no points, and every other entry is unchanged. -/
theorem confirm_result_C4 (p : Pairing) (roster : List TournamentPlayer)
    (cur : Nat) (now : Int) (w b : Nat) (ew eb : TournamentPlayer) :
    ((∃ pr, confirm_result p cur now = .ok pr) ↔
      p.has_pending_claim = true ∧ p.isParticipant cur ∧
        some cur ≠ p.claimed_by) ∧
    (∀ pr rr, confirm_result_full p roster cur now = .ok (pr, rr) →
      pr.result = p.claimed_result.getD GameResult.pending ∧
      pr.confirmed_by = some cur ∧ pr.confirmed_at = some now ∧
      pr.played_at = some now ∧
      pr.claimed_result = p.claimed_result ∧ pr.claimed_by = p.claimed_by ∧
      pr.claimed_at = p.claimed_at ∧
      pr.white_player_id = p.white_player_id ∧
      pr.black_player_id = p.black_player_id) ∧
    (p.claimed_result = some GameResult.white_wins →
     p.white_player_id = some w → p.black_player_id = some b → w ≠ b →
     findEntry roster w = some ew → findEntry roster b = some eb →
     ∀ pr rr, confirm_result_full p roster cur now = .ok (pr, rr) →
      findEntry rr w = some { ew with
        score := ew.score + 2, wins := ew.wins + 1,
        games_as_white := ew.games_as_white + 1 } ∧
      findEntry rr b = some { eb with
        losses := eb.losses + 1, games_as_black := eb.games_as_black + 1 } ∧
      (∀ q, q ≠ w → q ≠ b → findEntry rr q = findEntry roster q)) := by
  refine ⟨?_, ?_, ?_⟩
  · constructor
    · rintro ⟨pr, hok⟩
      unfold confirm_result at hok
      split_ifs at hok with h1 h2 h3 <;> simp_all
    · rintro ⟨h1, h2, h3⟩
      refine ⟨{ p with
        result := p.claimed_result.getD GameResult.pending,
        confirmed_by := some cur, confirmed_at := some now,
        played_at := some now }, ?_⟩
      unfold confirm_result
      split_ifs <;> simp_all
  · intro pr rr hok
    unfold confirm_result_full at hok
    cases hc : confirm_result p cur now with
    | error e => rw [hc] at hok; exact absurd hok (by simp)
    | ok pr' =>
      rw [hc] at hok
      simp only [Except.ok.injEq, Prod.mk.injEq] at hok
      obtain ⟨hpr, hrr⟩ := hok
      subst hpr
      unfold confirm_result at hc
      split_ifs at hc
      simp only [Except.ok.injEq] at hc
      subst hc
      simp
  · intro hcr hw hb hwb hew heb pr rr hok
    unfold confirm_result_full at hok
    cases hc : confirm_result p cur now with
    | error e => rw [hc] at hok; exact absurd hok (by simp)
    | ok pr' =>
      rw [hc] at hok
      simp only [Except.ok.injEq, Prod.mk.injEq] at hok
      obtain ⟨hpr, hrr⟩ := hok
      subst hpr
      unfold confirm_result at hc
      split_ifs at hc
      simp only [Except.ok.injEq] at hc
      subst hc
      subst hrr
      exact update_player_scores_white_wins _ roster w b ew eb
        (by simp [hcr]) hw hb hwb hew heb

/-- C4, witness: scenario B at concrete inputs — player 1 (white) claims
`white_wins`, player 2 confirms at time 200; player 1's entry gains a full
point and a win, player 2's a loss, and an unrelated id is untouched. -/
theorem confirm_result_C4_witness :
    findEntry exConfirmedRoster 1 = some { exEntry 1 with
      score := (exEntry 1).score + 2, wins := (exEntry 1).wins + 1,
      games_as_white := (exEntry 1).games_as_white + 1 } ∧
    findEntry exConfirmedRoster 2 = some { exEntry 2 with
      losses := (exEntry 2).losses + 1,
      games_as_black := (exEntry 2).games_as_black + 1 } ∧
    findEntry exConfirmedRoster 7 = findEntry exRoster 7 := by
  have h := (confirm_result_C4 exClaimedPairing exRoster 2 200 1 2
      (exEntry 1) (exEntry 2)).2.2 (by decide) (by decide) (by decide)
      (by decide) (by decide) (by decide) exConfirmedPairing
      exConfirmedRoster (by decide)
  exact ⟨h.1, h.2.1, h.2.2 7 (by decide) (by decide)⟩

/-- C10: an administrative override of a pairing whose outcome is already
terminal changes only the outcome and its bookkeeping fields (played time,
confirmer, confirmation time, the dispute flag and — when a claim was
present — the cleared claim fields): the roster, and hence every player's
score, win/draw/loss counts and color counters, is left unchanged, and the
pairing's identity fields are untouched. -/
theorem admin_override_C10 (p : Pairing) (adminId : Nat) (res : GameResult)
    (now : Int) (roster : List TournamentPlayer)
    (hterm : p.result ≠ GameResult.pending) :
    (admin_override_result p adminId res now roster).2 = roster ∧
    (admin_override_result p adminId res now roster).1.result = res ∧
    (admin_override_result p adminId res now roster).1.played_at = some now ∧
    (admin_override_result p adminId res now roster).1.confirmed_by = some adminId ∧
    (admin_override_result p adminId res now roster).1.confirmed_at = some now ∧
    (admin_override_result p adminId res now roster).1.is_disputed = false ∧
    (admin_override_result p adminId res now roster).1.white_player_id = p.white_player_id ∧
    (admin_override_result p adminId res now roster).1.black_player_id = p.black_player_id ∧
    (admin_override_result p adminId res now roster).1.round_number = p.round_number ∧
    (admin_override_result p adminId res now roster).1.board_number = p.board_number ∧
    (admin_override_result p adminId res now roster).1.deadline = p.deadline ∧
    (admin_override_result p adminId res now roster).1.no_show_claimed_by = p.no_show_claimed_by ∧
    (admin_override_result p adminId res now roster).1.dispute_reason = p.dispute_reason ∧
    (p.claimed_result ≠ none →
      (admin_override_result p adminId res now roster).1.claimed_result = none ∧
      (admin_override_result p adminId res now roster).1.claimed_by = none ∧
      (admin_override_result p adminId res now roster).1.claimed_at = none ∧
      (admin_override_result p adminId res now roster).1.confirmation_deadline = none) := by
  unfold admin_override_result
  by_cases hc : p.claimed_result ≠ none <;> simp [hterm, hc]

/-- C10, witness: overriding an already-decided concrete pairing (with a
stale claim attached) to `black_wins` leaves the roster unchanged and sets
exactly the bookkeeping fields. -/
theorem admin_override_C10_witness :
    (admin_override_result { exClaimedPairing with result := GameResult.white_wins }
       9 GameResult.black_wins 300 exRoster).2 = exRoster ∧
    (admin_override_result { exClaimedPairing with result := GameResult.white_wins }
       9 GameResult.black_wins 300 exRoster).1.result = GameResult.black_wins ∧
    (admin_override_result { exClaimedPairing with result := GameResult.white_wins }
       9 GameResult.black_wins 300 exRoster).1.claimed_result = none := by
  have h := admin_override_C10
    { exClaimedPairing with result := GameResult.white_wins }
    9 GameResult.black_wins 300 exRoster (by decide)
  exact ⟨h.1, h.2.1, (h.2.2.2.2.2.2.2.2.2.2.2.2.2 (by decide)).1⟩

theorem processExpired_fst (now : Int) (ps : List Pairing) :
    ∀ roster, (process_expired_deadlines now ps roster).1 =
      ps.map fun q => if expiredEligible now q then resolveExpired now q else q := by
  induction ps with
  | nil => intro roster; rfl
  | cons p ps ih =>
    intro roster
    by_cases h : expiredEligible now p <;>
      simp [process_expired_deadlines, h, ih]

theorem processExpired_count (now : Int) (ps : List Pairing) :
    ∀ roster, (process_expired_deadlines now ps roster).2.2 =
      (ps.filter (expiredEligible now)).length := by
  induction ps with
  | nil => intro roster; rfl
  | cons p ps ih =>
    intro roster
    by_cases h : expiredEligible now p <;>
      simp [process_expired_deadlines, h, ih]

/-- C5: deadline processing selects exactly the pending pairings whose
deadline is strictly before `now`; an eligible pairing with a no-show claim
forfeits the accused side (the side that did not make the claim), and an
eligible pairing with no claim from either side is double-forfeited with a
loss recorded for both players and no points awarded. -/
theorem process_expired_deadlines_C5 (now : Int) (ps : List Pairing)
    (roster : List TournamentPlayer) (p : Pairing) (c w b : Nat)
    (ew eb : TournamentPlayer) :
    ((process_expired_deadlines now ps roster).1 =
      ps.map fun q => if expiredEligible now q then resolveExpired now q else q) ∧
    ((process_expired_deadlines now ps roster).2.2 =
      (ps.filter (expiredEligible now)).length) ∧
    (expiredEligible now p = true ↔
      p.result = GameResult.pending ∧ ∃ d, p.deadline = some d ∧ d < now) ∧
    (p.no_show_claimed_by = some c → some c = p.white_player_id →
      (resolveExpired now p).result = GameResult.black_forfeit) ∧
    (p.no_show_claimed_by = some c → some c ≠ p.white_player_id →
      (resolveExpired now p).result = GameResult.white_forfeit) ∧
    (p.no_show_claimed_by = none →
      (resolveExpired now p).result = GameResult.double_forfeit) ∧
    (expiredEligible now p = true → p.no_show_claimed_by = none →
     p.white_player_id = some w → p.black_player_id = some b → w ≠ b →
     findEntry roster w = some ew → findEntry roster b = some eb →
      (process_expired_deadlines now [p] roster).1 = [resolveExpired now p] ∧
      (resolveExpired now p).result = GameResult.double_forfeit ∧
      (resolveExpired now p).played_at = some now ∧
      findEntry (process_expired_deadlines now [p] roster).2.1 w =
        some { ew with losses := ew.losses + 1 } ∧
      findEntry (process_expired_deadlines now [p] roster).2.1 b =
        some { eb with losses := eb.losses + 1 } ∧
      (process_expired_deadlines now [p] roster).2.2 = 1) := by
  refine ⟨processExpired_fst now ps roster, processExpired_count now ps roster,
    ?_, ?_, ?_, ?_, ?_⟩
  · unfold expiredEligible
    cases hd : p.deadline <;> simp
  · intro hns hcw
    simp only [resolveExpired, hns]
    rw [if_pos hcw]
  · intro hns hcw
    simp only [resolveExpired, hns]
    rw [if_neg hcw]
  · intro hns
    simp [resolveExpired, hns]
  · intro helig hns hw hb hwb hew heb
    have hres : (resolveExpired now p).result = GameResult.double_forfeit := by
      simp [resolveExpired, hns]
    have hroster : (process_expired_deadlines now [p] roster).2.1 =
        update_player_scores (resolveExpired now p) roster := by
      simp [process_expired_deadlines, helig]
    have hupd := update_player_scores_double_forfeit (resolveExpired now p)
      roster w b ew eb hres (by simp [resolveExpired, hw])
      (by simp [resolveExpired, hb]) hwb hew heb
    refine ⟨by simp [process_expired_deadlines, helig], hres,
      by simp [resolveExpired], ?_, ?_, by simp [process_expired_deadlines, helig]⟩
    · rw [hroster]; exact hupd.1
    · rw [hroster]; exact hupd.2.1

/-- C5, witness: scenario D at concrete inputs — a pending pairing past its
deadline with no claim from either side is double-forfeited, both players
receive a loss and no points, and one record is processed. -/
theorem process_expired_deadlines_C5_witness :
    (process_expired_deadlines 100 [exExpiredPairing] exRoster).1 =
      [resolveExpired 100 exExpiredPairing] ∧
    (resolveExpired 100 exExpiredPairing).result = GameResult.double_forfeit ∧
    (resolveExpired 100 exExpiredPairing).played_at = some 100 ∧
    findEntry (process_expired_deadlines 100 [exExpiredPairing] exRoster).2.1 1 =
      some { exEntry 1 with losses := (exEntry 1).losses + 1 } ∧
    findEntry (process_expired_deadlines 100 [exExpiredPairing] exRoster).2.1 2 =
      some { exEntry 2 with losses := (exEntry 2).losses + 1 } ∧
    (process_expired_deadlines 100 [exExpiredPairing] exRoster).2.2 = 1 :=
  (process_expired_deadlines_C5 100 [exExpiredPairing] exRoster
      exExpiredPairing 0 1 2 (exEntry 1) (exEntry 2)).2.2.2.2.2.2
    (by decide) (by decide) (by decide) (by decide) (by decide)
    (by decide) (by decide)

theorem resolveExpired_ne_pending (now : Int) (p : Pairing) :
    (resolveExpired now p).result ≠ GameResult.pending := by
  unfold resolveExpired
  cases hns : p.no_show_claimed_by with
  | none => simp
  | some c =>
    by_cases hc : some c = p.white_player_id <;> simp [hc]

theorem processExpired_no_eligible (now : Int) :
    ∀ (ps : List Pairing) (roster : List TournamentPlayer),
      (∀ q ∈ ps, expiredEligible now q = false) →
      process_expired_deadlines now ps roster = (ps, roster, 0) := by
  intro ps
  induction ps with
  | nil => intro roster _; rfl
  | cons p ps ih =>
    intro roster h
    have hp := h p (List.mem_cons_self p ps)
    simp [process_expired_deadlines, hp,
      ih roster fun q hq => h q (List.mem_cons_of_mem p hq)]

/-- C6: deadline processing is idempotent — a pairing whose outcome is
already terminal is never selected, and re-running the processor on the
output of a previous run (same time) processes zero records and leaves
every pairing and roster entry unchanged. -/
theorem process_expired_deadlines_C6 (now : Int) (ps : List Pairing)
    (roster : List TournamentPlayer) :
    (∀ q : Pairing, q.result ≠ GameResult.pending →
      expiredEligible now q = false) ∧
    process_expired_deadlines now
        (process_expired_deadlines now ps roster).1
        (process_expired_deadlines now ps roster).2.1 =
      ((process_expired_deadlines now ps roster).1,
       (process_expired_deadlines now ps roster).2.1, 0) := by
  have hterm : ∀ q : Pairing, q.result ≠ GameResult.pending →
      expiredEligible now q = false := by
    intro q h
    unfold expiredEligible
    simp [h]
  refine ⟨hterm, ?_⟩
  apply processExpired_no_eligible
  intro q hq
  rw [processExpired_fst] at hq
  obtain ⟨q0, _, hq0⟩ := List.mem_map.mp hq
  by_cases h : expiredEligible now q0
  · rw [if_pos h] at hq0
    subst hq0
    exact hterm _ (resolveExpired_ne_pending now q0)
  · rw [if_neg h] at hq0
    subst hq0
    exact eq_false_of_ne_true h

/-- C6, witness: at concrete inputs, a terminal pairing is not eligible, and
re-running the processor after a run that resolved the expired pairing
processes zero records and changes nothing. -/
theorem process_expired_deadlines_C6_witness :
    expiredEligible 100 exConfirmedPairing = false ∧
    process_expired_deadlines 100
        (process_expired_deadlines 100 [exExpiredPairing] exRoster).1
        (process_expired_deadlines 100 [exExpiredPairing] exRoster).2.1 =
      ((process_expired_deadlines 100 [exExpiredPairing] exRoster).1,
       (process_expired_deadlines 100 [exExpiredPairing] exRoster).2.1, 0) :=
  ⟨(process_expired_deadlines_C6 100 [exExpiredPairing] exRoster).1
      exConfirmedPairing (by decide),
   (process_expired_deadlines_C6 100 [exExpiredPairing] exRoster).2⟩

/-- Five players rated 2000 down to 1600 for the round-robin scenario. -/
def exFivePlayers : List SwissPlayer :=
  [⟨1, 0, 2000, 0, 0, [], false⟩, ⟨2, 0, 1900, 0, 0, [], false⟩,
   ⟨3, 0, 1800, 0, 0, [], false⟩, ⟨4, 0, 1700, 0, 0, [], false⟩,
   ⟨5, 0, 1600, 0, 0, [], false⟩]

/-- C9: the round-robin engine reports the total-rounds requirement as
`n - 1` for an even number of active players and `n` for an odd number (a
synthetic bye slot having been injected); the pairing router recomputes the
same requirement and rejects generation exactly when the tournament's
configured round count is below it; a 5-player round robin requires 5
rounds. -/
theorem get_total_rounds_C9 (players : List SwissPlayer) :
    (get_total_rounds players =
      if (activePlayers players).length % 2 = 0 then
        ((activePlayers players).length : Int) - 1
      else ((activePlayers players).length : Int)) ∧
    roundRobinRequiredRounds (activePlayers players).length =
      get_total_rounds players ∧
    (∀ tr : Int, roundRobinValidationRejects (activePlayers players).length tr =
      true ↔ tr < get_total_rounds players) ∧
    get_total_rounds exFivePlayers = 5 := by
  have hcount : get_total_rounds players =
      if (activePlayers players).length % 2 = 0 then
        ((activePlayers players).length : Int) - 1
      else ((activePlayers players).length : Int) := by
    unfold get_total_rounds roundRobinPlayerCount
    rcases Nat.even_or_odd (activePlayers players).length with h | h
    · have h2 : (activePlayers players).length % 2 = 0 := Nat.even_iff.mp h
      simp [h2]
    · have h2 : (activePlayers players).length % 2 = 1 := Nat.odd_iff.mp h
      simp [h2]
  refine ⟨hcount, ?_, ?_, by decide⟩
  · unfold roundRobinRequiredRounds
    rw [hcount]
  · intro tr
    unfold roundRobinValidationRejects
    rw [show roundRobinRequiredRounds (activePlayers players).length =
        get_total_rounds players from by unfold roundRobinRequiredRounds; rw [hcount]]
    simp

theorem sorted_orderedInsert_local {α : Type} (r : α → α → Prop)
    [DecidableRel r] (a : α) :
    ∀ L : List α, L.Sorted r →
    (∀ x ∈ L, r a x ∨ r x a) →
    (∀ x ∈ L, ∀ y ∈ L, r a x → r x y → r a y) →
    (L.orderedInsert r a).Sorted r := by
  intro L
  induction L with
  | nil =>
    intro _ _ _
    simp [List.orderedInsert, List.sorted_singleton]
  | cons b L ih =>
    intro hs htot htr
    simp only [List.orderedInsert]
    by_cases hab : r a b
    · rw [if_pos hab]
      have hbL : ∀ x ∈ L, r b x := (List.sorted_cons.mp hs).1
      refine List.sorted_cons.mpr ⟨?_, hs⟩
      intro x hx
      rcases List.mem_cons.mp hx with hxb | hxL
      · subst hxb; exact hab
      · exact htr b (List.mem_cons_self b L) x (List.mem_cons_of_mem b hxL)
          hab (hbL x hxL)
    · rw [if_neg hab]
      have hsL : L.Sorted r := (List.sorted_cons.mp hs).2
      have hbL : ∀ x ∈ L, r b x := (List.sorted_cons.mp hs).1
      have hrec := ih hsL
        (fun x hx => htot x (List.mem_cons_of_mem b hx))
        (fun x hx y hy => htr x (List.mem_cons_of_mem b hx) y
          (List.mem_cons_of_mem b hy))
      refine List.sorted_cons.mpr ⟨?_, hrec⟩
      intro x hx
      rcases (List.mem_orderedInsert r).mp hx with hxa | hxL
      · subst hxa
        rcases htot b (List.mem_cons_self b L) with h | h
        · exact absurd h hab
        · exact h
      · exact hbL x hxL

/-- Sortedness of `insertionSort` under comparison hypotheses restricted to
the members of the list being sorted (the comparators of this code base are
transitive on the rosters that arise, but not on the whole player type). -/
theorem sorted_insertionSort_local {α : Type} (r : α → α → Prop)
    [DecidableRel r] :
    ∀ l : List α,
    (∀ x ∈ l, ∀ y ∈ l, r x y ∨ r y x) →
    (∀ x ∈ l, ∀ y ∈ l, ∀ z ∈ l, r x y → r y z → r x z) →
    (l.insertionSort r).Sorted r := by
  intro l
  induction l with
  | nil => intro _ _; simp
  | cons a l ih =>
    intro htot htr
    simp only [List.insertionSort]
    have hmem : ∀ x ∈ l.insertionSort r, x ∈ l := fun x hx =>
      (List.perm_insertionSort r l).mem_iff.mp hx
    apply sorted_orderedInsert_local
    · exact ih
        (fun x hx y hy => htot x (List.mem_cons_of_mem a hx) y
          (List.mem_cons_of_mem a hy))
        (fun x hx y hy z hz => htr x (List.mem_cons_of_mem a hx) y
          (List.mem_cons_of_mem a hy) z (List.mem_cons_of_mem a hz))
    · intro x hx
      exact htot a (List.mem_cons_self a l) x
        (List.mem_cons_of_mem a (hmem x hx))
    · intro x hx y hy hax hxy
      exact htr a (List.mem_cons_self a l) x
        (List.mem_cons_of_mem a (hmem x hx)) y
        (List.mem_cons_of_mem a (hmem y hy)) hax hxy

theorem sorted_getLast_le {α : Type} (r : α → α → Prop) (l : List α)
    (hne : l ≠ []) (hs : l.Sorted r) (hrefl : ∀ x, r x x) :
    ∀ q ∈ l, r q (l.getLast hne) := by
  intro q hq
  obtain ⟨i, hi, hgi⟩ := List.mem_iff_getElem.mp hq
  rw [List.getLast_eq_getElem]
  have hb : l.length - 1 < l.length := by
    have : 0 < l.length := List.length_pos.mpr hne
    omega
  by_cases hil : i = l.length - 1
  · have heq : l[l.length - 1] = q := by
      subst hil; exact hgi
    rw [heq]
    exact hrefl q
  · have hlt : i < l.length - 1 := by
      have : 0 < l.length := List.length_pos.mpr hne
      omega
    have := List.pairwise_iff_getElem.mp hs i (l.length - 1) hi (by omega) hlt
    rw [← hgi]
    exact this

theorem enum_map_add_one {γ : Type} (l : List γ) :
    (l.enum.map fun x => x.1 + 1) = (List.range l.length).map (· + 1) := by
  rw [← List.enum_map_fst l, List.map_map]
  rfl

theorem pairHalves_zip_length (t : List SwissPlayer) :
    ((t.take (t.length / 2)).zip (t.drop (t.length / 2))).length =
      t.length / 2 := by
  rw [List.length_zip, List.length_take, List.length_drop]
  omega

theorem pairHalves_length (t : List SwissPlayer) :
    (pairHalves t).length = t.length / 2 := by
  unfold pairHalves
  rw [List.length_map, List.enum_length, pairHalves_zip_length]

theorem pairHalves_nonbye (t : List SwissPlayer) :
    ∀ pr ∈ pairHalves t, pr.is_bye = false := by
  intro pr hpr
  obtain ⟨x, _, hx⟩ := List.mem_map.mp hpr
  rw [← hx]

theorem pairHalves_boards (t : List SwissPlayer) :
    (pairHalves t).map (·.board_number) =
      (List.range (t.length / 2)).map (· + 1) := by
  unfold pairHalves
  rw [List.map_map]
  have : ((fun pr : SwissPairing => pr.board_number) ∘ fun x :
      Nat × (SwissPlayer × SwissPlayer) =>
      ({ white_id := x.2.1.id, black_id := some x.2.2.id,
         board_number := x.1 + 1, is_bye := false } : SwissPairing)) =
      fun x : Nat × (SwissPlayer × SwissPlayer) => x.1 + 1 := rfl
  rw [this, enum_map_add_one, pairHalves_zip_length]

theorem pairHalves_rating (t : List SwissPlayer) (hs : t.Sorted ratingDesc) :
    ∀ pr ∈ pairHalves t, ∃ pw ∈ t, ∃ pb ∈ t,
      pr.white_id = pw.id ∧ pr.black_id = some pb.id ∧
      pb.rating ≤ pw.rating := by
  intro pr hpr
  obtain ⟨x, hx, hfx⟩ := List.mem_map.mp hpr
  obtain ⟨i, hi, hgi⟩ := List.mem_iff_getElem.mp hx
  have hi' : i < ((t.take (t.length / 2)).zip (t.drop (t.length / 2))).length := by
    simpa using hi
  have hzlen : i < t.length / 2 := by
    rw [pairHalves_zip_length] at hi'
    exact hi'
  have hgethalf : i < (t.take (t.length / 2)).length := by
    rw [List.length_take]
    omega
  have hgetdrop : i < (t.drop (t.length / 2)).length := by
    rw [List.length_drop]
    omega
  have hit : i < t.length := by omega
  have hwlt : t.length / 2 + i < t.length := by omega
  have hx_eq : x = (i, ((t.take (t.length / 2)).zip (t.drop (t.length / 2)))[i]) := by
    rw [← List.getElem_enum _ i hi]
    exact hgi.symm
  have hzip : ((t.take (t.length / 2)).zip (t.drop (t.length / 2)))[i] =
      ((t.take (t.length / 2))[i], (t.drop (t.length / 2))[i]) :=
    List.getElem_zip
  have htake : (t.take (t.length / 2))[i] = t[i] :=
    List.getElem_take t
  have hdrop : (t.drop (t.length / 2))[i] = t[t.length / 2 + i] :=
    List.getElem_drop t
  refine ⟨t[i], List.getElem_mem _, t[t.length / 2 + i],
    List.getElem_mem _, ?_, ?_, ?_⟩
  · rw [← hfx, hx_eq]
    simp [hzip, htake]
  · rw [← hfx, hx_eq]
    simp [hzip, hdrop]
  · have := List.pairwise_iff_getElem.mp hs i (t.length / 2 + i) (by omega)
      hwlt (by omega)
    exact this

theorem zip_flatMap_ids_perm :
    ∀ (l1 l2 : List SwissPlayer), l1.length = l2.length →
      ((l1.zip l2).flatMap fun ab => [ab.1.id, ab.2.id]).Perm
        (l1.map (·.id) ++ l2.map (·.id)) := by
  intro l1
  induction l1 with
  | nil =>
    intro l2 h
    have : l2 = [] := List.length_eq_zero.mp h.symm
    subst this
    simp
  | cons a l1 ih =>
    intro l2 h
    cases l2 with
    | nil => simp at h
    | cons b l2 =>
      simp only [List.zip_cons_cons, List.flatMap_cons, List.map_cons,
        List.cons_append]
      refine List.Perm.cons a.id ?_
      refine List.Perm.trans (List.Perm.cons b.id (ih l2 (by simpa using h)))
        ?_
      exact List.perm_middle.symm

theorem pairHalves_ids (t : List SwissPlayer) :
    idsOfPairings (pairHalves t) =
      ((t.take (t.length / 2)).zip (t.drop (t.length / 2))).flatMap
        fun ab => [ab.1.id, ab.2.id] := by
  unfold idsOfPairings pairHalves
  rw [List.flatMap_def, List.flatMap_def, List.map_map]
  have h1 : ((fun pr : SwissPairing => pr.white_id :: pr.black_id.toList) ∘
      fun x : Nat × (SwissPlayer × SwissPlayer) =>
        ({ white_id := x.2.1.id, black_id := some x.2.2.id,
           board_number := x.1 + 1, is_bye := false } : SwissPairing)) =
      ((fun ab : SwissPlayer × SwissPlayer => [ab.1.id, ab.2.id]) ∘
        Prod.snd) := rfl
  rw [h1, ← List.map_map, List.enum_map_snd]

/-- For an even-length input, each input player appears exactly once (as
white or black) across the halves pairing. -/
theorem pairHalves_ids_perm (t : List SwissPlayer)
    (heven : t.length % 2 = 0) :
    (idsOfPairings (pairHalves t)).Perm (t.map (·.id)) := by
  rw [pairHalves_ids]
  have hlen : (t.take (t.length / 2)).length = (t.drop (t.length / 2)).length := by
    rw [List.length_take, List.length_drop]
    omega
  refine (zip_flatMap_ids_perm _ _ hlen).trans ?_
  rw [← List.map_append, List.take_append_drop]

/-- The `k`-th game of the halves pairing is rank `k` of the top half, as
white, against rank `k` of the bottom half, on board `k + 1`. -/
theorem pairHalves_getElem? (t : List SwissPlayer) (k : Nat)
    (hk : k < t.length / 2) :
    ∃ pw pb : SwissPlayer, t[k]? = some pw ∧
      t[t.length / 2 + k]? = some pb ∧
      (pairHalves t)[k]? =
        some { white_id := pw.id, black_id := some pb.id,
               board_number := k + 1, is_bye := false } := by
  have hkt : k < t.length := by omega
  have hhk : t.length / 2 + k < t.length := by omega
  have hkp : k < (pairHalves t).length := by
    rw [pairHalves_length]
    exact hk
  have hgethalf : k < (t.take (t.length / 2)).length := by
    rw [List.length_take]
    omega
  have hgetdrop : k < (t.drop (t.length / 2)).length := by
    rw [List.length_drop]
    omega
  have hkz : k < ((t.take (t.length / 2)).zip (t.drop (t.length / 2))).length := by
    rw [pairHalves_zip_length]
    exact hk
  have hzip : ((t.take (t.length / 2)).zip (t.drop (t.length / 2)))[k] =
      ((t.take (t.length / 2))[k], (t.drop (t.length / 2))[k]) :=
    List.getElem_zip
  have htake : (t.take (t.length / 2))[k] = t[k] := List.getElem_take t
  have hdrop : (t.drop (t.length / 2))[k] = t[t.length / 2 + k] :=
    List.getElem_drop t
  refine ⟨t[k], t[t.length / 2 + k], List.getElem?_eq_getElem hkt,
    List.getElem?_eq_getElem hhk, ?_⟩
  rw [List.getElem?_eq_getElem hkp]
  congr 1
  unfold pairHalves
  rw [List.getElem_map, List.getElem_enum]
  simp [hzip, htake, hdrop]

/-- C8: round-1 Swiss pairing — the sorted active players produce exactly
one bye when their number is odd (given to a lowest-rated player, with no
opponent and board 0) and none otherwise; there are `n / 2` games whose
board numbers are `1, 2, ...` in order; each game pairs a top-half player
as white against a lower-or-equally-rated bottom-half player as black;
every active player appears exactly once across the round's pairings and
bye; the `k`-th game is rank `k` of the rating-sorted list as white
against rank `n / 2 + k` (rank `k` of the bottom half) as black on board
`k + 1`; and with exactly two players rated 1600 and 1400 the single
pairing is (white = the 1600 player, black = the 1400 player, board 1). -/
theorem generate_round_1_C8 (players : List SwissPlayer) :
    ((generate_round_1_pairings players).countP (·.is_bye) =
      if (activePlayers players).length % 2 = 1 then 1 else 0) ∧
    ((generate_round_1_pairings players).countP (fun pr => !pr.is_bye) =
      (activePlayers players).length / 2) ∧
    (((generate_round_1_pairings players).filter fun pr => !pr.is_bye).map
        (·.board_number) =
      (List.range ((activePlayers players).length / 2)).map (· + 1)) ∧
    (∀ pr ∈ generate_round_1_pairings players, pr.is_bye = false →
      ∃ pw ∈ activePlayers players, ∃ pb ∈ activePlayers players,
        pr.white_id = pw.id ∧ pr.black_id = some pb.id ∧
        pb.rating ≤ pw.rating) ∧
    (∀ pr ∈ generate_round_1_pairings players, pr.is_bye = true →
      pr.black_id = none ∧ pr.board_number = 0 ∧
      ∃ m ∈ activePlayers players, pr.white_id = m.id ∧
        ∀ q ∈ activePlayers players, m.rating ≤ q.rating) ∧
    (idsOfPairings (generate_round_1_pairings players)).Perm
      ((activePlayers players).map (·.id)) ∧
    (∀ k, k < (activePlayers players).length / 2 →
      ∃ pw pb : SwissPlayer,
        (List.insertionSort ratingDesc (activePlayers players))[k]? =
          some pw ∧
        (List.insertionSort ratingDesc
          (activePlayers players))[(activePlayers players).length / 2 + k]? =
          some pb ∧
        ((generate_round_1_pairings players).filter fun pr => !pr.is_bye)[k]? =
          some { white_id := pw.id, black_id := some pb.id,
                 board_number := k + 1, is_bye := false }) ∧
    generate_round_1_pairings
        [⟨1, 0, 1600, 0, 0, [], false⟩, ⟨2, 0, 1400, 0, 0, [], false⟩] =
      [{ white_id := 1, black_id := some 2, board_number := 1,
         is_bye := false }] := by
  set s := List.insertionSort ratingDesc (activePlayers players) with hs_def
  have hperm : s.Perm (activePlayers players) := List.perm_insertionSort _ _
  have hlen : s.length = (activePlayers players).length := hperm.length_eq
  have hsorted : s.Sorted ratingDesc := by
    apply sorted_insertionSort_local
    · intro x _ y _
      exact le_total y.rating x.rating
    · intro x _ y _ z _ hxy hyz
      exact le_trans hyz hxy
  by_cases hpar : s.length % 2 = 1
  · -- odd number of active players: one bye plus the paired halves
    have hne : s ≠ [] := by
      intro h
      rw [h] at hpar
      simp at hpar
    have hform : generate_round_1_pairings players =
        ({ white_id := (s.getLast hne).id, black_id := none,
           board_number := 0, is_bye := true } : SwissPairing) ::
          pairHalves s.dropLast := by
      unfold generate_round_1_pairings
      rw [← hs_def, if_pos hpar, List.getLast?_eq_getLast s hne]
      rfl
    have hzero : (pairHalves s.dropLast).countP (·.is_bye) = 0 :=
      List.countP_eq_zero.mpr fun pr hpr => by
        simp [pairHalves_nonbye _ pr hpr]
    have hall : (pairHalves s.dropLast).countP (fun pr => !pr.is_bye) =
        (pairHalves s.dropLast).length :=
      List.countP_eq_length.mpr fun pr hpr => by
        simp [pairHalves_nonbye _ pr hpr]
    have hdl : s.dropLast.length = s.length - 1 := List.length_dropLast s
    have hdl2 : s.dropLast.length / 2 = (activePlayers players).length / 2 := by
      omega
    have hsorted' : s.dropLast.Sorted ratingDesc :=
      List.Pairwise.sublist (List.dropLast_sublist s) hsorted
    have hfilter : ((generate_round_1_pairings players).filter
        fun pr => !pr.is_bye) = pairHalves s.dropLast := by
      rw [hform, List.filter_cons, if_neg (by simp)]
      exact List.filter_eq_self.mpr fun pr hpr => by
        simp [pairHalves_nonbye _ pr hpr]
    refine ⟨?_, ?_, ?_, ?_, ?_, ?_, ?_, by decide⟩
    · rw [hform, List.countP_cons, hzero, if_pos (by rfl), ← hlen, if_pos hpar]
    · rw [hform, List.countP_cons, hall, pairHalves_length, if_neg (by simp),
        Nat.add_zero, hdl2]
    · rw [hfilter, pairHalves_boards, hdl2]
    · intro pr hpr hnb
      rw [hform] at hpr
      rcases List.mem_cons.mp hpr with hb | hp
      · rw [hb] at hnb
        simp at hnb
      · obtain ⟨pw, hpw, pb, hpb, h1, h2, h3⟩ :=
          pairHalves_rating s.dropLast hsorted' pr hp
        exact ⟨pw, hperm.mem_iff.mp ((List.dropLast_sublist s).subset hpw),
          pb, hperm.mem_iff.mp ((List.dropLast_sublist s).subset hpb),
          h1, h2, h3⟩
    · intro pr hpr hb
      rw [hform] at hpr
      rcases List.mem_cons.mp hpr with hbb | hp
      · subst hbb
        refine ⟨rfl, rfl, s.getLast hne, hperm.mem_iff.mp (List.getLast_mem hne),
          rfl, ?_⟩
        intro q hq
        exact sorted_getLast_le ratingDesc s hne hsorted (fun x => le_refl _)
          q (hperm.mem_iff.mpr hq)
      · rw [pairHalves_nonbye _ pr hp] at hb
        exact absurd hb (by simp)
    · have heven' : s.dropLast.length % 2 = 0 := by omega
      have h1 : idsOfPairings (generate_round_1_pairings players) =
          (s.getLast hne).id :: idsOfPairings (pairHalves s.dropLast) := by
        rw [hform]
        simp [idsOfPairings]
      rw [h1]
      refine List.Perm.trans
        (List.Perm.cons _ (pairHalves_ids_perm _ heven')) ?_
      have h3 : s.dropLast.map (·.id) ++ [(s.getLast hne).id] =
          s.map (·.id) := by
        conv_rhs => rw [← List.dropLast_append_getLast hne]
        rw [List.map_append]
        rfl
      refine List.Perm.trans (List.perm_append_singleton _ _).symm ?_
      rw [h3]
      exact hperm.map _
    · intro k hk
      have hk' : k < s.dropLast.length / 2 := by omega
      obtain ⟨pw, pb, hpw, hpb, hrec⟩ := pairHalves_getElem? s.dropLast k hk'
      have hkd : k < s.dropLast.length := by omega
      have hkd2 : s.dropLast.length / 2 + k < s.dropLast.length := by omega
      have hks : k < s.length := by omega
      have hks2 : s.dropLast.length / 2 + k < s.length := by omega
      have hpw' : s[k]? = some pw := by
        rw [List.getElem?_eq_getElem hkd, List.getElem_dropLast] at hpw
        rw [List.getElem?_eq_getElem hks]
        exact hpw
      have hpb' : s[(activePlayers players).length / 2 + k]? = some pb := by
        have hidx : (activePlayers players).length / 2 + k =
            s.dropLast.length / 2 + k := by omega
        rw [hidx, List.getElem?_eq_getElem hks2]
        rw [List.getElem?_eq_getElem hkd2, List.getElem_dropLast] at hpb
        exact hpb
      refine ⟨pw, pb, hpw', hpb', ?_⟩
      rw [hfilter]
      exact hrec
  · -- even number of active players: no bye
    have hform : generate_round_1_pairings players = pairHalves s := by
      unfold generate_round_1_pairings
      rw [← hs_def, if_neg hpar]
    have hfilter : ((generate_round_1_pairings players).filter
        fun pr => !pr.is_bye) = pairHalves s := by
      rw [hform]
      exact List.filter_eq_self.mpr fun pr hpr => by
        simp [pairHalves_nonbye _ pr hpr]
    refine ⟨?_, ?_, ?_, ?_, ?_, ?_, ?_, by decide⟩
    · rw [hform, List.countP_eq_zero.mpr fun pr hpr => by
        simp [pairHalves_nonbye _ pr hpr], ← hlen, if_neg hpar]
    · rw [hform, List.countP_eq_length.mpr fun pr hpr => by
        simp [pairHalves_nonbye _ pr hpr], pairHalves_length, hlen]
    · rw [hfilter, pairHalves_boards, hlen]
    · intro pr hpr hnb
      rw [hform] at hpr
      obtain ⟨pw, hpw, pb, hpb, h1, h2, h3⟩ :=
        pairHalves_rating s hsorted pr hpr
      exact ⟨pw, hperm.mem_iff.mp hpw, pb, hperm.mem_iff.mp hpb, h1, h2, h3⟩
    · intro pr hpr hb
      rw [hform] at hpr
      rw [pairHalves_nonbye _ pr hpr] at hb
      exact absurd hb (by simp)
    · have heven : s.length % 2 = 0 := by omega
      rw [hform]
      exact (pairHalves_ids_perm s heven).trans (hperm.map _)
    · intro k hk
      have hk' : k < s.length / 2 := by omega
      obtain ⟨pw, pb, hpw, hpb, hrec⟩ := pairHalves_getElem? s k hk'
      have hidx : (activePlayers players).length / 2 + k =
          s.length / 2 + k := by omega
      refine ⟨pw, pb, hpw, by rw [hidx]; exact hpb, ?_⟩
      rw [hfilter]
      exact hrec

theorem findOpponent_perm (p1 : SwissPlayer) :
    ∀ l q rest', findOpponent p1 l = some (q, rest') → (q :: rest').Perm l := by
  intro l
  induction l with
  | nil => intro q rest' h; simp [findOpponent] at h
  | cons p2 rest ih =>
    intro q rest' h
    simp only [findOpponent] at h
    split at h
    · cases hfo : findOpponent p1 rest with
      | none => rw [hfo] at h; exact absurd h (by simp)
      | some pr =>
        obtain ⟨q', rest''⟩ := pr
        rw [hfo] at h
        simp only [Option.some.injEq, Prod.mk.injEq] at h
        obtain ⟨hq, hr⟩ := h
        subst hr
        rw [← hq]
        exact (List.Perm.swap p2 q' rest'').trans ((ih q' rest'' hfo).cons p2)
    · simp only [Option.some.injEq, Prod.mk.injEq] at h
      obtain ⟨hq, hr⟩ := h
      rw [← hq, ← hr]

theorem assign_colors_ids (p1 p2 : SwissPlayer) :
    assign_colors p1 p2 = (p1.id, p2.id) ∨
    assign_colors p1 p2 = (p2.id, p1.id) := by
  unfold assign_colors
  split_ifs <;> simp

theorem pairLoop_nonbye (fuel : Nat) :
    ∀ (nb : Nat) (avail : List SwissPlayer),
      ∀ pr ∈ (pairLoop fuel nb avail).1, pr.is_bye = false := by
  induction fuel with
  | zero => intro nb avail pr hpr; simp [pairLoop] at hpr
  | succ fuel ih =>
    intro nb avail pr hpr
    match avail with
    | [] => simp [pairLoop] at hpr
    | [p] => simp [pairLoop] at hpr
    | p1 :: p2 :: rest =>
      rw [pairLoop] at hpr
      cases hfo : findOpponent p1 (p2 :: rest) with
      | some qr =>
        rw [hfo] at hpr
        simp only [List.mem_cons] at hpr
        rcases hpr with h | h
        · rw [h]
        · exact ih (nb + 1) qr.2 pr h
      | none =>
        rw [hfo] at hpr
        exact ih nb (p2 :: rest) pr hpr

theorem pairLoop_count (pid : Nat) : ∀ (fuel : Nat) (nb : Nat)
    (avail : List SwissPlayer), avail.length ≤ fuel →
    List.count pid (idsOfPairings (pairLoop fuel nb avail).1) +
      List.count pid ((pairLoop fuel nb avail).2.map (·.id)) =
    List.count pid (avail.map (·.id)) := by
  intro fuel
  induction fuel with
  | zero =>
    intro nb avail hle
    have : avail = [] := List.length_eq_zero.mp (Nat.le_zero.mp hle)
    subst this
    simp [pairLoop, idsOfPairings]
  | succ fuel ih =>
    intro nb avail hle
    match avail with
    | [] => simp [pairLoop, idsOfPairings]
    | [p] => simp [pairLoop, idsOfPairings]
    | p1 :: p2 :: rest =>
      rw [pairLoop]
      cases hfo : findOpponent p1 (p2 :: rest) with
      | some qr =>
        obtain ⟨q, rest'⟩ := qr
        have hperm := findOpponent_perm p1 (p2 :: rest) q rest' hfo
        have hlen := findOpponent_length p1 (p2 :: rest) q rest' hfo
        have hle' : rest'.length ≤ fuel := by
          simp only [List.length_cons] at hle hlen
          omega
        have hih := ih (nb + 1) rest' hle'
        simp only [idsOfPairings, List.flatMap_cons] at *
        have hcount :
            List.count pid ((q :: rest').map (·.id)) =
              List.count pid ((p2 :: rest).map (·.id)) :=
          (hperm.map (·.id)).count_eq pid
        simp only [List.map_cons, List.count_cons] at hcount ⊢
        rcases assign_colors_ids p1 q with hwb | hwb <;>
          · rw [hwb]
            simp only [Option.toList_some, List.count_append, List.count_cons,
              List.count_nil] at *
            omega
      | none =>
        have hle' : (p2 :: rest).length ≤ fuel := by
          simp only [List.length_cons] at hle ⊢
          omega
        have hih := ih nb (p2 :: rest) hle'
        simp only [List.map_cons, List.count_cons] at *
        omega

theorem idsOfPairings_append (a b : List SwissPairing) :
    idsOfPairings (a ++ b) = idsOfPairings a ++ idsOfPairings b := by
  simp [idsOfPairings]

theorem processGroups_nonbye :
    ∀ (gs : List (List SwissPlayer)) (nb : Nat) (pids : List Nat)
      (carry : List SwissPlayer),
      ∀ pr ∈ (processGroups nb pids carry gs).1, pr.is_bye = false := by
  intro gs
  induction gs with
  | nil => intro nb pids carry pr hpr; simp [processGroups] at hpr
  | cons g gs ih =>
    intro nb pids carry pr hpr
    have heq : processGroups nb pids carry (g :: gs) =
        ((pairLoop ((carry ++ g).filter fun p => !pids.contains p.id).length nb
            ((carry ++ g).filter fun p => !pids.contains p.id)).1 ++
          (processGroups
            (nb + (pairLoop ((carry ++ g).filter fun p => !pids.contains p.id).length nb
              ((carry ++ g).filter fun p => !pids.contains p.id)).1.length)
            (pids ++ idsOfPairings (pairLoop
              ((carry ++ g).filter fun p => !pids.contains p.id).length nb
              ((carry ++ g).filter fun p => !pids.contains p.id)).1)
            (pairLoop ((carry ++ g).filter fun p => !pids.contains p.id).length nb
              ((carry ++ g).filter fun p => !pids.contains p.id)).2 gs).1,
         (processGroups
            (nb + (pairLoop ((carry ++ g).filter fun p => !pids.contains p.id).length nb
              ((carry ++ g).filter fun p => !pids.contains p.id)).1.length)
            (pids ++ idsOfPairings (pairLoop
              ((carry ++ g).filter fun p => !pids.contains p.id).length nb
              ((carry ++ g).filter fun p => !pids.contains p.id)).1)
            (pairLoop ((carry ++ g).filter fun p => !pids.contains p.id).length nb
              ((carry ++ g).filter fun p => !pids.contains p.id)).2 gs).2) := rfl
    rw [heq] at hpr
    rcases List.mem_append.mp hpr with h | h
    · exact pairLoop_nonbye _ nb _ pr h
    · exact ih _ _ _ pr h

theorem processGroups_count (pid : Nat) :
    ∀ (gs : List (List SwissPlayer)) (nb : Nat) (pids : List Nat)
      (carry : List SwissPlayer),
    List.count pid (idsOfPairings (processGroups nb pids carry gs).1) +
      List.count pid ((processGroups nb pids carry gs).2.map (·.id)) ≤
    List.count pid (carry.map (·.id)) +
      List.count pid (gs.flatMap fun g => g.map (·.id)) := by
  intro gs
  induction gs with
  | nil => intro nb pids carry; simp [processGroups, idsOfPairings]
  | cons g gs ih =>
    intro nb pids carry
    set A := (carry ++ g).filter (fun p => !pids.contains p.id) with hA
    set P := pairLoop A.length nb A with hP
    set R := processGroups (nb + P.1.length) (pids ++ idsOfPairings P.1) P.2 gs
      with hR
    have heq : processGroups nb pids carry (g :: gs) = (P.1 ++ R.1, R.2) := rfl
    rw [heq]
    have hpl := pairLoop_count pid A.length nb A (le_refl _)
    have hih := ih (nb + P.1.length) (pids ++ idsOfPairings P.1) P.2
    have hsub : List.Sublist (A.map (·.id)) ((carry ++ g).map (·.id)) :=
      (List.filter_sublist _).map _
    have hcav : List.count pid (A.map (·.id)) ≤
        List.count pid ((carry ++ g).map (·.id)) := hsub.count_le pid
    rw [← hP] at hpl
    rw [← hR] at hih
    simp only [idsOfPairings_append, List.count_append, List.map_append,
      List.flatMap_cons] at *
    omega

theorem count_groups_le (pid : Nat) :
    ∀ (ss : List Int) (l : List SwissPlayer), ss.Nodup →
    List.count pid
      ((ss.map fun s' => l.filter fun p => p.score = s').flatMap
        fun g => g.map (·.id)) ≤
    List.count pid (l.map (·.id)) := by
  intro ss
  induction ss with
  | nil => intro l _; simp
  | cons s ss ih =>
    intro l hnd
    have hs_not : s ∉ ss := (List.nodup_cons.mp hnd).1
    have hnd' : ss.Nodup := (List.nodup_cons.mp hnd).2
    have hmapeq : (ss.map fun s' => l.filter fun p => p.score = s') =
        ss.map fun s' =>
          (l.filter fun p => !(p.score = s : Bool)).filter fun p => p.score = s' := by
      apply List.map_congr_left
      intro s' hs'
      have hne : s' ≠ s := fun h => hs_not (h ▸ hs')
      rw [List.filter_filter]
      apply List.filter_congr
      intro p _
      by_cases hp : p.score = s'
      · have : ¬(p.score = s) := fun h => hne (by rw [← hp, h])
        simp [hp, this, hne]
      · simp [hp]
    have hih := ih (l.filter fun p => !(p.score = s : Bool)) hnd'
    have hsplit : List.count pid ((l.filter fun p => (p.score = s : Bool)).map (·.id)) +
        List.count pid ((l.filter fun p => !(p.score = s : Bool)).map (·.id)) =
        List.count pid (l.map (·.id)) := by
      rw [← List.count_append, ← List.map_append]
      exact ((List.filter_append_perm _ l).map (·.id)).count_eq pid
    simp only [List.map_cons, List.flatMap_cons, List.count_append]
    rw [hmapeq]
    omega

theorem srKeyLe_refl (a : SwissPlayer) : srKeyLe a a := Or.inr ⟨rfl, le_refl _⟩

theorem srKeyLe_trans {a b c : SwissPlayer} (h1 : srKeyLe a b)
    (h2 : srKeyLe b c) : srKeyLe a c := by
  unfold srKeyLe at *
  rcases h1 with h1 | ⟨h1, h1'⟩ <;> rcases h2 with h2 | ⟨h2, h2'⟩
  · exact Or.inl (h1.trans h2)
  · exact Or.inl (by omega)
  · exact Or.inl (by omega)
  · exact Or.inr ⟨by omega, by omega⟩

theorem srKeyLe_of_lt {a b : SwissPlayer} (h : srKeyLt a b) : srKeyLe a b := by
  unfold srKeyLt at h
  unfold srKeyLe
  rcases h with h | ⟨h, h'⟩
  · exact Or.inl h
  · exact Or.inr ⟨h, le_of_lt h'⟩

theorem srKeyLe_of_not_lt {a b : SwissPlayer} (h : ¬ srKeyLt b a) :
    srKeyLe a b := by
  unfold srKeyLt at h
  unfold srKeyLe
  omega

theorem minBySR_spec :
    ∀ (l : List SwissPlayer) (x : SwissPlayer),
      minBySR x l ∈ x :: l ∧ ∀ q ∈ x :: l, srKeyLe (minBySR x l) q := by
  intro l
  induction l with
  | nil =>
    intro x
    refine ⟨by simp [minBySR], ?_⟩
    intro q hq
    simp only [List.mem_singleton] at hq
    subst hq
    exact srKeyLe_refl q
  | cons y l ih =>
    intro x
    by_cases hyx : srKeyLt y x
    · have hstep : minBySR x (y :: l) = minBySR y l := by
        simp [minBySR, hyx]
      obtain ⟨hmem, hle⟩ := ih y
      constructor
      · rw [hstep]
        rcases List.mem_cons.mp hmem with h | h
        · rw [h]; simp
        · simp [h]
      · intro q hq
        rw [hstep]
        rcases List.mem_cons.mp hq with hqx | hq'
        · subst hqx
          exact srKeyLe_trans (hle y (List.mem_cons_self y l)) (srKeyLe_of_lt hyx)
        · exact hle q hq'
    · have hstep : minBySR x (y :: l) = minBySR x l := by
        simp [minBySR, hyx]
      obtain ⟨hmem, hle⟩ := ih x
      constructor
      · rw [hstep]
        rcases List.mem_cons.mp hmem with h | h
        · rw [h]; simp
        · simp [h]
      · intro q hq
        rw [hstep]
        rcases List.mem_cons.mp hq with hqx | hq'
        · subst hqx
          exact hle q (List.mem_cons_self q l)
        · rcases List.mem_cons.mp hq' with hqy | hql
          · subst hqy
            exact srKeyLe_trans (hle x (List.mem_cons_self x l))
              (srKeyLe_of_not_lt hyx)
          · exact hle q (List.mem_cons_of_mem x hql)

/-- C3 (amended): in Swiss pairing for rounds `≥ 2`, every active player
appears in at most one pairing or bye of the generated round (assuming
distinct player ids); at most one bye is issued in the whole round; and any
bye goes to a player from the unpaired-after-all-groups set whose
`(score, rating)` key is minimal in that set.  Players left unpaired after
all score groups other than the single bye recipient are dropped from the
round (see the counterexample), so "every unpaired player receives a bye"
does not hold. -/
theorem generate_swiss_C3 (players : List SwissPlayer) (pid : Nat)
    (hnodup : ((activePlayers players).map (·.id)).Nodup) :
    List.count pid (idsOfPairings (generate_swiss_pairings players)) ≤ 1 ∧
    (generate_swiss_pairings players).countP (·.is_bye) ≤ 1 ∧
    (∀ pr ∈ generate_swiss_pairings players, pr.is_bye = true →
      pr.black_id = none ∧ pr.board_number = 0 ∧
      ∃ m ∈ swissUnpaired players, pr.white_id = m.id ∧
        ∀ q ∈ swissUnpaired players, srKeyLe m q) := by
  have hact : List.count pid ((activePlayers players).map (·.id)) ≤ 1 :=
    List.nodup_iff_count_le_one.mp hnodup pid
  have hperm : (List.insertionSort scoreRatingDesc (activePlayers players)).Perm
      (activePlayers players) := List.perm_insertionSort _ _
  have hsorted_cnt :
      List.count pid ((List.insertionSort scoreRatingDesc
        (activePlayers players)).map (·.id)) =
      List.count pid ((activePlayers players).map (·.id)) :=
    (hperm.map (·.id)).count_eq pid
  have hcov : List.count pid ((swissScoreGroups players).flatMap
      fun g => g.map (·.id)) ≤
      List.count pid ((activePlayers players).map (·.id)) := by
    rw [← hsorted_cnt]
    exact count_groups_le pid
      ((List.insertionSort scoreRatingDesc (activePlayers players)).map
        (·.score)).dedup
      (List.insertionSort scoreRatingDesc (activePlayers players))
      (List.nodup_dedup _)
  have hpg := processGroups_count pid (swissScoreGroups players) 0 [] []
  simp only [List.map_nil, List.count_nil, Nat.zero_add] at hpg
  have hunp : swissUnpaired players =
      (processGroups 0 [] [] (swissScoreGroups players)).2 := rfl
  cases hun : (processGroups 0 [] [] (swissScoreGroups players)).2 with
  | nil =>
    have hgen : generate_swiss_pairings players =
        (processGroups 0 [] [] (swissScoreGroups players)).1 := by
      simp only [generate_swiss_pairings, hun]
    rw [hgen]
    refine ⟨?_, ?_, ?_⟩
    · rw [hun] at hpg
      simp only [List.map_nil, List.count_nil, Nat.add_zero] at hpg
      omega
    · rw [List.countP_eq_zero.mpr fun pr hpr => by
        simp [processGroups_nonbye (swissScoreGroups players) 0 [] [] pr hpr]]
      omega
    · intro pr hpr hb
      rw [processGroups_nonbye (swissScoreGroups players) 0 [] [] pr hpr] at hb
      exact absurd hb (by simp)
  | cons u us =>
    have hgen : generate_swiss_pairings players =
        (processGroups 0 [] [] (swissScoreGroups players)).1 ++
          [{ white_id := (minBySR u us).id, black_id := none,
             board_number := 0, is_bye := true }] := by
      simp only [generate_swiss_pairings, hun]
    obtain ⟨hmmem, hmle⟩ := minBySR_spec us u
    rw [hgen]
    refine ⟨?_, ?_, ?_⟩
    · rw [hun] at hpg
      have hsingle : List.count pid [(minBySR u us).id] ≤
          List.count pid ((u :: us).map (·.id)) := by
        by_cases hpm : pid = (minBySR u us).id
        · rw [hpm]
          have hmm : (minBySR u us).id ∈ (u :: us).map (·.id) :=
            List.mem_map.mpr ⟨minBySR u us, hmmem, rfl⟩
          have hpos := List.count_pos_iff.mpr hmm
          have hone : List.count (minBySR u us).id [(minBySR u us).id] = 1 := by
            simp
          omega
        · simp [hpm]
      rw [idsOfPairings_append, List.count_append]
      have hbyeids : idsOfPairings
          [{ white_id := (minBySR u us).id, black_id := none,
             board_number := 0, is_bye := true }] = [(minBySR u us).id] := rfl
      rw [hbyeids]
      omega
    · rw [List.countP_append,
        List.countP_eq_zero.mpr fun pr hpr => by
          simp [processGroups_nonbye (swissScoreGroups players) 0 [] [] pr hpr]]
      simp
    · intro pr hpr hb
      rcases List.mem_append.mp hpr with h | h
      · rw [processGroups_nonbye (swissScoreGroups players) 0 [] [] pr h] at hb
        exact absurd hb (by simp)
      · simp only [List.mem_singleton] at h
        subst h
        refine ⟨rfl, rfl, minBySR u us, ?_, rfl, ?_⟩
        · rw [hunp, hun]
          exact hmmem
        · intro q hq
          rw [hunp, hun] at hq
          exact hmle q hq

/-- Three mutually-acquainted active players with equal scores, ratings
1500, 1400, 1300: no pair can be formed without a rematch. -/
def exTriangle : List SwissPlayer :=
  [⟨1, 2, 1500, 1, 1, [2, 3], false⟩, ⟨2, 2, 1400, 1, 1, [1, 3], false⟩,
   ⟨3, 2, 1300, 1, 1, [1, 2], false⟩]

/-- C3, counterexample to the original claim: all three players of
`exTriangle` are active and unpaired after the score groups, yet the
generated round contains only a single bye (for player 3, the lowest
score/rating); players 1 and 2 appear in no pairing or bye at all, so it is
false that every unpaired active player receives a bye, and false that
every active player appears in exactly one pairing or bye. -/
theorem generate_swiss_C3_counterexample :
    (∀ q ∈ exTriangle, q.is_withdrawn = false) ∧
    generate_swiss_pairings exTriangle =
      [{ white_id := 3, black_id := none, board_number := 0,
         is_bye := true }] ∧
    List.count 1 (idsOfPairings (generate_swiss_pairings exTriangle)) = 0 ∧
    List.count 2 (idsOfPairings (generate_swiss_pairings exTriangle)) = 0 := by
  refine ⟨by decide, by decide, by decide, by decide⟩

/-- C3, witness: the amended theorem evaluated on `exTriangle`. -/
theorem generate_swiss_C3_witness :
    List.count 1 (idsOfPairings (generate_swiss_pairings exTriangle)) ≤ 1 ∧
    (generate_swiss_pairings exTriangle).countP (·.is_bye) ≤ 1 :=
  ⟨(generate_swiss_C3 exTriangle 1 (by decide)).1,
   (generate_swiss_C3 exTriangle 1 (by decide)).2.1⟩

/-- Three active players, ratings 1500/1400/1300, no games yet, for the
round-1 witness. -/
def exThreePlayers : List SwissPlayer :=
  [⟨1, 0, 1500, 0, 0, [], false⟩, ⟨2, 0, 1400, 0, 0, [], false⟩,
   ⟨3, 0, 1300, 0, 0, [], false⟩]

/-- C8, witness: the round-1 theorem evaluated on a concrete odd roster and
on the two-player scenario. -/
theorem generate_round_1_C8_witness :
    ((generate_round_1_pairings exThreePlayers).countP (·.is_bye) =
      if (activePlayers exThreePlayers).length % 2 = 1 then 1 else 0) ∧
    (idsOfPairings (generate_round_1_pairings exThreePlayers)).Perm
      ((activePlayers exThreePlayers).map (·.id)) ∧
    (∃ pw pb : SwissPlayer,
      (List.insertionSort ratingDesc (activePlayers exThreePlayers))[0]? =
        some pw ∧
      (List.insertionSort ratingDesc
        (activePlayers exThreePlayers))[(activePlayers exThreePlayers).length / 2 + 0]? =
        some pb ∧
      ((generate_round_1_pairings exThreePlayers).filter
          fun pr => !pr.is_bye)[0]? =
        some { white_id := pw.id, black_id := some pb.id,
               board_number := 0 + 1, is_bye := false }) ∧
    generate_round_1_pairings
        [⟨1, 0, 1600, 0, 0, [], false⟩, ⟨2, 0, 1400, 0, 0, [], false⟩] =
      [{ white_id := 1, black_id := some 2, board_number := 1,
         is_bye := false }] :=
  ⟨(generate_round_1_C8 exThreePlayers).1,
   (generate_round_1_C8 exThreePlayers).2.2.2.2.2.1,
   (generate_round_1_C8 exThreePlayers).2.2.2.2.2.2.1 0 (by decide),
   (generate_round_1_C8 exThreePlayers).2.2.2.2.2.2.2⟩

/-- C9, witness: the round-robin requirement evaluated on the concrete
5-player roster. -/
theorem get_total_rounds_C9_witness :
    roundRobinRequiredRounds (activePlayers exFivePlayers).length =
      get_total_rounds exFivePlayers ∧
    (roundRobinValidationRejects (activePlayers exFivePlayers).length 4 = true ↔
      4 < get_total_rounds exFivePlayers) ∧
    get_total_rounds exFivePlayers = 5 :=
  ⟨(get_total_rounds_C9 exFivePlayers).2.1,
   (get_total_rounds_C9 exFivePlayers).2.2.1 4,
   (get_total_rounds_C9 exFivePlayers).2.2.2⟩

theorem assignRanks_map_rank :
    ∀ (l : List TournamentPlayer) (k : Nat),
      (assignRanks k l).map (·.final_rank) =
        (List.range' (k + 1) l.length).map some := by
  intro l
  induction l with
  | nil => intro k; rfl
  | cons tp rest ih =>
    intro k
    simp only [assignRanks, List.map_cons, List.length_cons, List.range',
      ih (k + 1)]

theorem assignRanks_map_pid :
    ∀ (l : List TournamentPlayer) (k : Nat),
      (assignRanks k l).map (·.player_id) = l.map (·.player_id) := by
  intro l
  induction l with
  | nil => intro k; rfl
  | cons tp rest ih =>
    intro k
    simp only [assignRanks, List.map_cons, ih (k + 1)]

theorem withBuchholz_map_pid (roster : List TournamentPlayer)
    (pairings : List Pairing) :
    (withBuchholz roster pairings).map (·.player_id) =
      (activeEntries roster).map (·.player_id) := by
  unfold withBuchholz
  rw [List.map_map]
  rfl

/-- C1 (amended): the final ranking computed at tournament finalization
sorts the non-withdrawn roster by the `compare_players` order — score
(descending), then Buchholz (descending), then head-to-head (the winner of
a decisive direct game ranks above the loser), then total wins
(descending); Sonneborn-Berger is not consulted — and assigns final ranks
`1..N` with no gaps, over exactly the non-withdrawn roster.  The comparison
hypotheses ask that `compare_players` behave as a total preorder on the
roster being ranked, which is the regime in which Python's stable sort
produces a well-defined order. -/
theorem finalize_tournament_C1 (roster : List TournamentPlayer)
    (pairings : List Pairing)
    (htot : ∀ a ∈ withBuchholz roster pairings,
      ∀ b ∈ withBuchholz roster pairings,
      finalizeLe (h2hLookup pairings) a b ∨ finalizeLe (h2hLookup pairings) b a)
    (htr : ∀ a ∈ withBuchholz roster pairings,
      ∀ b ∈ withBuchholz roster pairings,
      ∀ c ∈ withBuchholz roster pairings,
      finalizeLe (h2hLookup pairings) a b → finalizeLe (h2hLookup pairings) b c →
      finalizeLe (h2hLookup pairings) a c) :
    List.Sorted (finalizeLe (h2hLookup pairings))
      (rankedPlayers roster pairings) ∧
    (finalize_tournament roster pairings).map (·.final_rank) =
      (List.range' 1 (activeEntries roster).length).map some ∧
    ((finalize_tournament roster pairings).map (·.player_id)).Perm
      ((activeEntries roster).map (·.player_id)) := by
  have hperm : (rankedPlayers roster pairings).Perm
      (withBuchholz roster pairings) := List.perm_insertionSort _ _
  have hlen : (rankedPlayers roster pairings).length =
      (activeEntries roster).length := by
    rw [hperm.length_eq]
    unfold withBuchholz
    rw [List.length_map]
  refine ⟨?_, ?_, ?_⟩
  · exact sorted_insertionSort_local _ _ htot htr
  · unfold finalize_tournament
    rw [assignRanks_map_rank, hlen]
  · unfold finalize_tournament
    rw [assignRanks_map_pid, ← withBuchholz_map_pid roster pairings]
    exact hperm.map _

/-- A recorded game between two players, all lifecycle fields clear. -/
def exGame (w b : Nat) (res : GameResult) : Pairing :=
  { round_number := 1, board_number := 1, white_player_id := some w,
    black_player_id := some b, result := res, deadline := none,
    played_at := none, no_show_claimed_by := none, claimed_result := none,
    claimed_by := none, claimed_at := none, confirmation_deadline := none,
    confirmed_by := none, confirmed_at := none, is_disputed := false,
    dispute_reason := none }

/-- A roster entry with the given id, score (half-points), wins, draws and
losses. -/
def exFinalEntry (pid : Nat) (sc : Int) (w d lo : Nat) : TournamentPlayer :=
  { player_id := pid, seed_rating := 1500, score := sc, wins := w, draws := d,
    losses := lo, buchholz := 0, games_as_white := 0, games_as_black := 0,
    final_rank := none, is_withdrawn := false }

/-- Six players: 1 beat 3 and lost to 5 (1.0 point, 1 win); 2 drew 3 and 4
(1.0 point, 0 wins); the others as implied by `exFinalPairings`.  Players 1
and 2 are tied on score and Buchholz and never met; player 2 has the higher
Sonneborn-Berger, player 1 the more wins. -/
def exFinalRoster : List TournamentPlayer :=
  [exFinalEntry 1 2 1 0 1, exFinalEntry 2 2 0 2 0, exFinalEntry 3 1 0 1 1,
   exFinalEntry 4 2 0 2 0, exFinalEntry 5 2 1 0 0, exFinalEntry 6 1 0 1 0]

/-- The completed games producing the scores of `exFinalRoster`. -/
def exFinalPairings : List Pairing :=
  [exGame 1 3 GameResult.white_wins, exGame 5 1 GameResult.white_wins,
   exGame 2 3 GameResult.draw, exGame 2 4 GameResult.draw,
   exGame 4 6 GameResult.draw]

/-- C1, counterexample to the original claim: the spec's sort chain (score,
Buchholz, then Sonneborn-Berger) places player 2 strictly above player 1
(equal score and Buchholz, Sonneborn-Berger 0.75 vs 0.5), yet the code's
finalization — which never consults Sonneborn-Berger and falls through to
total wins — ranks player 1 first and player 2 second. -/
theorem finalize_tournament_C1_counterexample :
    specRanksAbove exFinalRoster exFinalPairings 2 1 = true ∧
    finalRankOf exFinalRoster exFinalPairings 1 = some 1 ∧
    finalRankOf exFinalRoster exFinalPairings 2 = some 2 := by
  refine ⟨by decide, by decide, by decide⟩

/-- C1, witness: the amended finalization theorem evaluated on the concrete
six-player tournament, with the total-preorder hypotheses discharged by
computation. -/
theorem finalize_tournament_C1_witness :
    List.Sorted (finalizeLe (h2hLookup exFinalPairings))
      (rankedPlayers exFinalRoster exFinalPairings) ∧
    (finalize_tournament exFinalRoster exFinalPairings).map (·.final_rank) =
      (List.range' 1 (activeEntries exFinalRoster).length).map some ∧
    ((finalize_tournament exFinalRoster exFinalPairings).map (·.player_id)).Perm
      ((activeEntries exFinalRoster).map (·.player_id)) :=
  finalize_tournament_C1 exFinalRoster exFinalPairings (by decide) (by decide)
